import Mathlib

/-!
The `BeamSearch` kernel and `DmlGraphFusionTransformer` of onnxruntime.

Verification development over a shallow embedding of

* `onnxruntime/contrib_ops/cpu/transformers/beam_search.h`
  (the `BeamSearch` control-flow kernel: members and device-helper setters), and
* `onnxruntime/core/providers/dml/DmlExecutionProvider/src/DmlGraphFusionTransformer.cpp`
  (`DmlGraphFusionTransformer::ApplyImpl`).

Definitions come first, theorems afterwards.
-/

namespace onnxruntime.contrib.transformers

/-! ## `beam_search.h`: the kernel object -/

/-- Modelled from the spec: `BeamSearchParameters` is declared in
`beam_search_parameters.h`, which is not among the sources; the fields are the operator inputs
of section 6 of the specification. The beam and sequence counts are signed, so that a count
below one can be given; lengths are numbers of tokens; `length_penalty` and
`repetition_penalty` are kept in fixed-point units; the vocabulary masks are an optional
allow-list and a deny-list of token ids. -/
structure BeamSearchParameters where
  vocab_size : Nat
  num_beams : Int
  num_return_sequences : Int
  min_length : Nat
  max_length : Nat
  length_penalty : Int
  repetition_penalty : Int
  eos_token_id : Nat
  pad_token_id : Nat
  vocab_allow : Option (List Nat)
  vocab_deny : List Nat
  deriving DecidableEq, Repr

/-- The signatures declared in `GenerationDeviceHelper` that the kernel stores. The template
instantiations (`<float>`, `<MLFloat16>`, `<int32_t>`) are distinct kinds. -/
inductive FuncKind where
  | AddToFeedsFunc
  | TopkFunc
  | DeviceCopyFunc_float
  | DeviceCopyFunc_int32
  | ProcessLogitsFunc_float
  | ProcessLogitsFunc_fp16
  | InitBeamStateFunc_float
  | InitBeamStateFunc_fp16
  | UpdateGptFeedsFunc_float
  | UpdateGptFeedsFunc_fp16
  | CreateEncoderInputsFunc
  | UpdateDecoderFeedsFunc_float
  | UpdateDecoderFeedsFunc_fp16
  | ExpandBufferFunc_int32
  | ExpandBufferFunc_float
  | ExpandBufferFunc_fp16
  deriving DecidableEq, Repr

/-- A `std::function` of the given signature: either empty (`target = none`, what a
default-constructed `std::function` is) or bound to a callable, identified by a handle. -/
structure DeviceFunc (k : FuncKind) where
  target : Option Nat
  deriving DecidableEq, Repr

/-- The `explicit operator bool` of `std::function`: true when a callable is bound. -/
def DeviceFunc.bound {k : FuncKind} (f : DeviceFunc k) : Bool := f.target.isSome

/-- A default-constructed (empty) `std::function`. -/
def DeviceFunc.empty {k : FuncKind} : DeviceFunc k := ⟨none⟩

/-- The data members of `class BeamSearch`, in declaration order. Raw pointers and
`unique_ptr`s are handles (`none` is `nullptr`). -/
structure BeamSearch where
  add_to_feeds_func_ : DeviceFunc .AddToFeedsFunc
  topk_func_ : DeviceFunc .TopkFunc
  device_copy_func_ : DeviceFunc .DeviceCopyFunc_float
  device_copy_int32_func_ : DeviceFunc .DeviceCopyFunc_int32
  process_logits_func_ : DeviceFunc .ProcessLogitsFunc_float
  process_logits_fp16_func_ : DeviceFunc .ProcessLogitsFunc_fp16
  init_beam_state_func_ : DeviceFunc .InitBeamStateFunc_float
  init_beam_state_fp16_func_ : DeviceFunc .InitBeamStateFunc_fp16
  update_gpt_feeds_func_ : DeviceFunc .UpdateGptFeedsFunc_float
  update_gpt_feeds_fp16_func_ : DeviceFunc .UpdateGptFeedsFunc_fp16
  create_encoder_inputs_func_ : DeviceFunc .CreateEncoderInputsFunc
  update_decoder_feeds_func_ : DeviceFunc .UpdateDecoderFeedsFunc_float
  update_decoder_feeds_fp16_func_ : DeviceFunc .UpdateDecoderFeedsFunc_fp16
  expand_buffer_int32_func_ : DeviceFunc .ExpandBufferFunc_int32
  expand_buffer_float_func_ : DeviceFunc .ExpandBufferFunc_float
  expand_buffer_float16_func_ : DeviceFunc .ExpandBufferFunc_fp16
  gpt_subgraph_ : Option Nat
  t5_encoder_subgraph_ : Option Nat
  t5_decoder_subgraph_ : Option Nat
  encoder_feeds_fetches_manager_ : Option Nat
  decoder_feeds_fetches_manager_ : Option Nat
  ort_stream_ : Option Nat
  dumper_ : Option Nat
  parameters_ : BeamSearchParameters
  deriving DecidableEq, Repr

namespace BeamSearch

/-- The member initialisation of the constructor `BeamSearch(const OpKernelInfo&)`: the four
pointers named in the initialiser list are `nullptr`, every `std::function` and `unique_ptr`
member is default-constructed. The argument stands for the parameters `Init` reads from the
kernel info. -/
def construct (info : BeamSearchParameters) : BeamSearch where
  add_to_feeds_func_ := .empty
  topk_func_ := .empty
  device_copy_func_ := .empty
  device_copy_int32_func_ := .empty
  process_logits_func_ := .empty
  process_logits_fp16_func_ := .empty
  init_beam_state_func_ := .empty
  init_beam_state_fp16_func_ := .empty
  update_gpt_feeds_func_ := .empty
  update_gpt_feeds_fp16_func_ := .empty
  create_encoder_inputs_func_ := .empty
  update_decoder_feeds_func_ := .empty
  update_decoder_feeds_fp16_func_ := .empty
  expand_buffer_int32_func_ := .empty
  expand_buffer_float_func_ := .empty
  expand_buffer_float16_func_ := .empty
  gpt_subgraph_ := none
  t5_encoder_subgraph_ := none
  t5_decoder_subgraph_ := none
  encoder_feeds_fetches_manager_ := none
  decoder_feeds_fetches_manager_ := none
  ort_stream_ := none
  dumper_ := none
  parameters_ := info

/-- The setter `void SetComputeStream(Stream* stream)`, which assigns `ort_stream_`. -/
def SetComputeStream (self : BeamSearch) (stream : Option Nat) : BeamSearch :=
  { self with ort_stream_ := stream }

/-- The setter `void SetConsoleDumper(IConsoleDumper* dumper)`, which assigns `dumper_`. -/
def SetConsoleDumper (self : BeamSearch) (dumper : Option Nat) : BeamSearch :=
  { self with dumper_ := dumper }

/-- The setter `SetDeviceHelpers`: device helpers that are the same for GPT and
encoder-decoder models. Eight assignments, one per argument. -/
def SetDeviceHelpers (self : BeamSearch)
    (add_to_feeds_func : DeviceFunc .AddToFeedsFunc)
    (topk_func : DeviceFunc .TopkFunc)
    (device_copy_func : DeviceFunc .DeviceCopyFunc_float)
    (device_copy_int32_func : DeviceFunc .DeviceCopyFunc_int32)
    (process_logits_func : DeviceFunc .ProcessLogitsFunc_float)
    (process_logits_fp16_func : DeviceFunc .ProcessLogitsFunc_fp16)
    (init_beam_state_func : DeviceFunc .InitBeamStateFunc_float)
    (init_beam_state_fp16_func : DeviceFunc .InitBeamStateFunc_fp16) : BeamSearch :=
  { self with
    add_to_feeds_func_ := add_to_feeds_func
    topk_func_ := topk_func
    device_copy_func_ := device_copy_func
    device_copy_int32_func_ := device_copy_int32_func
    process_logits_func_ := process_logits_func
    process_logits_fp16_func_ := process_logits_fp16_func
    init_beam_state_func_ := init_beam_state_func
    init_beam_state_fp16_func_ := init_beam_state_fp16_func }

/-- The setter `SetDeviceHelpers_Gpt`: two assignments. -/
def SetDeviceHelpers_Gpt (self : BeamSearch)
    (update_gpt_feeds_func : DeviceFunc .UpdateGptFeedsFunc_float)
    (update_gpt_feeds_fp16_func : DeviceFunc .UpdateGptFeedsFunc_fp16) : BeamSearch :=
  { self with
    update_gpt_feeds_func_ := update_gpt_feeds_func
    update_gpt_feeds_fp16_func_ := update_gpt_feeds_fp16_func }

/-- The setter `SetDeviceHelpers_EncoderDecoder`: device helpers for encoder-decoder models like T5.
Five assignments. -/
def SetDeviceHelpers_EncoderDecoder (self : BeamSearch)
    (update_decoder_feeds_func : DeviceFunc .UpdateDecoderFeedsFunc_float)
    (update_decoder_feeds_fp16_func : DeviceFunc .UpdateDecoderFeedsFunc_fp16)
    (expand_buffer_int32_func : DeviceFunc .ExpandBufferFunc_int32)
    (expand_buffer_float_func : DeviceFunc .ExpandBufferFunc_float)
    (expand_buffer_float16_func : DeviceFunc .ExpandBufferFunc_fp16) : BeamSearch :=
  { self with
    update_decoder_feeds_func_ := update_decoder_feeds_func
    update_decoder_feeds_fp16_func_ := update_decoder_feeds_fp16_func
    expand_buffer_int32_func_ := expand_buffer_int32_func
    expand_buffer_float_func_ := expand_buffer_float_func
    expand_buffer_float16_func_ := expand_buffer_float16_func }

/-- The sixteen members declared under `// Device specific functions`, as bound flags in
declaration order. -/
def deviceFuncsBound (self : BeamSearch) : List Bool :=
  [ self.add_to_feeds_func_.bound, self.topk_func_.bound, self.device_copy_func_.bound,
    self.device_copy_int32_func_.bound, self.process_logits_func_.bound,
    self.process_logits_fp16_func_.bound, self.init_beam_state_func_.bound,
    self.init_beam_state_fp16_func_.bound, self.update_gpt_feeds_func_.bound,
    self.update_gpt_feeds_fp16_func_.bound, self.create_encoder_inputs_func_.bound,
    self.update_decoder_feeds_func_.bound, self.update_decoder_feeds_fp16_func_.bound,
    self.expand_buffer_int32_func_.bound, self.expand_buffer_float_func_.bound,
    self.expand_buffer_float16_func_.bound ]

/-- The three setters called one after the other, as a derived kernel class does when it
installs its device helpers. -/
def setAllDeviceHelpers (self : BeamSearch)
    (add_to_feeds_func : DeviceFunc .AddToFeedsFunc)
    (topk_func : DeviceFunc .TopkFunc)
    (device_copy_func : DeviceFunc .DeviceCopyFunc_float)
    (device_copy_int32_func : DeviceFunc .DeviceCopyFunc_int32)
    (process_logits_func : DeviceFunc .ProcessLogitsFunc_float)
    (process_logits_fp16_func : DeviceFunc .ProcessLogitsFunc_fp16)
    (init_beam_state_func : DeviceFunc .InitBeamStateFunc_float)
    (init_beam_state_fp16_func : DeviceFunc .InitBeamStateFunc_fp16)
    (update_gpt_feeds_func : DeviceFunc .UpdateGptFeedsFunc_float)
    (update_gpt_feeds_fp16_func : DeviceFunc .UpdateGptFeedsFunc_fp16)
    (update_decoder_feeds_func : DeviceFunc .UpdateDecoderFeedsFunc_float)
    (update_decoder_feeds_fp16_func : DeviceFunc .UpdateDecoderFeedsFunc_fp16)
    (expand_buffer_int32_func : DeviceFunc .ExpandBufferFunc_int32)
    (expand_buffer_float_func : DeviceFunc .ExpandBufferFunc_float)
    (expand_buffer_float16_func : DeviceFunc .ExpandBufferFunc_fp16) : BeamSearch :=
  ((self.SetDeviceHelpers add_to_feeds_func topk_func device_copy_func device_copy_int32_func
      process_logits_func process_logits_fp16_func init_beam_state_func
      init_beam_state_fp16_func).SetDeviceHelpers_Gpt update_gpt_feeds_func
      update_gpt_feeds_fp16_func).SetDeviceHelpers_EncoderDecoder update_decoder_feeds_func
      update_decoder_feeds_fp16_func expand_buffer_int32_func expand_buffer_float_func
      expand_buffer_float16_func

/-- No device function member is left empty. -/
def allDeviceFuncsBound (self : BeamSearch) : Bool := self.deviceFuncsBound.all id

end BeamSearch

end onnxruntime.contrib.transformers

namespace Dml

/-! ## `DmlGraphFusionTransformer.cpp` -/

/-- The identity of a `const onnx::TensorProto*` (the address of an initializer). -/
abbrev TensorProto := Nat

/-- What `ApplyImpl` reads of a `GraphPartition`. A partition is identified by its position in
the vector `partitions` (each `unique_ptr` owns a distinct object), so
`GetRootMergedPartition` is the position of the root of the merged chain. -/
structure GraphPartition where
  GetRootMergedPartition : Nat
  IsDmlPartition : Bool
  IsDmlGraphPartition : Bool
  GetInputs : List String
  deriving DecidableEq, Repr

/-- What `ApplyImpl` reads of an `onnxruntime::Graph`: the initialized tensors by name; the
rest of the graph (nodes, fused kernels) is carried as `nodes`. -/
structure Graph where
  initializedTensors : List (String × TensorProto)
  nodes : List Nat
  deriving DecidableEq, Repr

/-- The lookup `bool Graph::GetInitializedTensor(const std::string&, const TensorProto*&)`:
`some t` when the call returns true and sets the out-pointer to `t`. -/
def Graph.GetInitializedTensor (graph : Graph) (input : String) : Option TensorProto :=
  graph.initializedTensors.lookup input

/-- The value type of `isInitializerTransferable`:
`std::pair<const ONNX_NAMESPACE::TensorProto*, bool>`. -/
abbrev TransferEntry := TensorProto × Bool

/-- A `std::unordered_map<std::string, TransferEntry>` as an association list with unique
keys. -/
abbrev TransferMap := List (String × TransferEntry)

/-- The assignment `m[key] = value` on an `unordered_map`: insert or overwrite. -/
def TransferMap.assign (m : TransferMap) (key : String) (value : TransferEntry) : TransferMap :=
  (key, value) :: m.filter (fun kv => kv.1 != key)

/-- The lookup `m.find(key)`: `none` is `m.end()`. -/
def TransferMap.find (m : TransferMap) (key : String) : Option TransferEntry :=
  m.lookup key

/-- The function `std::to_string` on an unsigned value: its decimal digits. -/
def to_string (n : Nat) : String := Nat.repr n

/-- The arguments of one call of `DmlGraphFusionHelper::FusePartitionAndRegisterKernel` that
`ApplyImpl` computes: the partition (by position, equal to `partitionIndex`), the graph as it
is when the call is made, the kernel name prefix and the transferability map. -/
structure FuseCall where
  partitionIndex : Nat
  graph : Graph
  partitionKernelPrefix : String
  isInitializerTransferable : TransferMap
  deriving DecidableEq, Repr

/-- The collaborators of `ApplyImpl` whose code is in other files, as parameters:
`BuildPartitions` (its results `partitions` and `requiredInitializerMap`),
`DmlGraphFusionHelper::GetInitializerToPartitionMap` (its result, tensor to the partitions
using it) and the effect of `FusePartitionAndRegisterKernel` on the graph, which it receives
by reference. The helper is taken to leave the vector of partitions, the two maps and the
provider's prefix counter as they are. -/
structure Collaborators where
  partitions : List GraphPartition
  requiredInitializerMap : List String
  initializerPartitionMap : List (TensorProto × List Nat)
  FusePartitionAndRegisterKernel : FuseCall → Graph → Graph

/-- Modelled from the spec: `ExecutionProviderImpl::GetPartitionKernelPrefixVal` and
`IncreasePartitionKernelPrefixVal` are defined in another file; the provider is its counter,
which `Get` returns and `Increase` advances by one, the behaviour the property about the
kernel prefixes assumes. -/
structure ExecutionProviderImpl where
  m_partitionKernelPrefixVal : Nat
  deriving DecidableEq, Repr

/-- Modelled from the spec: returns the counter. -/
def ExecutionProviderImpl.GetPartitionKernelPrefixVal (p : ExecutionProviderImpl) : Nat :=
  p.m_partitionKernelPrefixVal

/-- Modelled from the spec: adds one to the counter. -/
def ExecutionProviderImpl.IncreasePartitionKernelPrefixVal (p : ExecutionProviderImpl) :
    ExecutionProviderImpl :=
  ⟨p.m_partitionKernelPrefixVal + 1⟩

/-- The body of `for (const auto& input : partition->GetInputs())` (lines 77-101), run over
the remaining inputs. `none` is the failure of `assert(iter != initializerPartitionMap.end())`. -/
def populateTransferable (graph : Graph) (requiredInitializerMap : List String)
    (initializerPartitionMap : List (TensorProto × List Nat)) :
    List String → TransferMap → Option TransferMap
  | [], isInitializerTransferable => some isInitializerTransferable
  | input :: rest, isInitializerTransferable =>
    match graph.GetInitializedTensor input with
    | none => populateTransferable graph requiredInitializerMap initializerPartitionMap rest
        isInitializerTransferable
    | some tensor =>
      match initializerPartitionMap.lookup tensor with
      | none => none
      | some users =>
        if users.length > 1 then
          if requiredInitializerMap.contains input then
            populateTransferable graph requiredInitializerMap initializerPartitionMap rest
              (isInitializerTransferable.assign input (tensor, false))
          else
            populateTransferable graph requiredInitializerMap initializerPartitionMap rest
              isInitializerTransferable
        else
          populateTransferable graph requiredInitializerMap initializerPartitionMap rest
            (isInitializerTransferable.assign input (tensor, true))

/-- The entry the claim expects for an input name, written from its wording: none unless the
name is an initialized tensor; for a tensor used by at most one partition the pair
`(tensor, true)`; for a shared tensor `(tensor, false)` when the name is required and no
entry otherwise. -/
def expectedTransferEntry (graph : Graph) (requiredInitializerMap : List String)
    (initializerPartitionMap : List (TensorProto × List Nat)) (input : String) :
    Option TransferEntry :=
  match graph.GetInitializedTensor input with
  | none => none
  | some tensor =>
    match initializerPartitionMap.lookup tensor with
    | none => none
    | some users =>
      if users.length ≤ 1 then some (tensor, true)
      else if input ∈ requiredInitializerMap then some (tensor, false)
      else none

/-- The state the partition loop threads: the graph, the provider's counter, and the calls of
`FusePartitionAndRegisterKernel` made so far, oldest first. -/
structure LoopState where
  graph : Graph
  provider : ExecutionProviderImpl
  calls : List FuseCall

/-- The loop `for (uint32_t partitionIndex = 0; partitionIndex < partitions.size();
++partitionIndex)` (lines 55-117) from a given index. The increment is taken modulo `2^32`;
`fuel` bounds the number of iterations and `none` is fuel exhausted or a failed assertion. -/
def partitionLoop (env : Collaborators) : Nat → Nat → LoopState → Option LoopState
  | 0, _, _ => none
  | fuel + 1, partitionIndex, st =>
    if partitionIndex < env.partitions.length then
      let next := (partitionIndex + 1) % 2 ^ 32
      match env.partitions[partitionIndex]? with
      | none => none
      | some partition =>
        if partition.GetRootMergedPartition != partitionIndex || !partition.IsDmlPartition then
          partitionLoop env fuel next st
        else if partition.IsDmlGraphPartition then
          match populateTransferable st.graph env.requiredInitializerMap
              env.initializerPartitionMap partition.GetInputs [] with
          | none => none
          | some isInitializerTransferable =>
            let partitionKernelPrefix := to_string st.provider.GetPartitionKernelPrefixVal ++ "_"
            let provider := st.provider.IncreasePartitionKernelPrefixVal
            let call : FuseCall :=
              { partitionIndex := partitionIndex
                graph := st.graph
                partitionKernelPrefix := partitionKernelPrefix
                isInitializerTransferable := isInitializerTransferable }
            partitionLoop env fuel next
              { graph := env.FusePartitionAndRegisterKernel call st.graph
                provider := provider
                calls := st.calls ++ [call] }
        else
          partitionLoop env fuel next st
    else
      some st

/-- The type `onnxruntime::common::Status`, as far as `ApplyImpl` produces it. -/
inductive Status where
  | OK
  | Fail
  deriving DecidableEq, Repr

/-- What a call of `ApplyImpl` leaves behind: the returned status, the two reference
parameters `graph` and `modified`, the provider, and the helper calls made. -/
structure ApplyResult where
  status : Status
  graph : Graph
  modified : Bool
  provider : ExecutionProviderImpl
  calls : List FuseCall
  deriving DecidableEq, Repr

/-- The method `DmlGraphFusionTransformer::ApplyImpl(graph, modified, graph_level, logger)`.
The loop gets one unit of fuel per partition plus one for the exit test. No statement assigns
`modified`, and the only `return` is `Status::OK()`. -/
def ApplyImpl (env : Collaborators) (m_providerImpl : ExecutionProviderImpl) (graph : Graph)
    (modified : Bool) (graph_level : Int) : Option ApplyResult :=
  let _ := graph_level
  match partitionLoop env (env.partitions.length + 1) 0
      { graph := graph, provider := m_providerImpl, calls := [] } with
  | none => none
  | some st =>
    some { status := Status.OK, graph := st.graph, modified := modified,
           provider := st.provider, calls := st.calls }

/-- The partitions the loop fuses: own root, DML partition, DML graph partition. -/
def GraphPartition.isFused (partition : GraphPartition) (partitionIndex : Nat) : Bool :=
  partition.GetRootMergedPartition == partitionIndex && partition.IsDmlPartition &&
    partition.IsDmlGraphPartition

/-- Whether position `i` holds a partition that the loop fuses. -/
def fusedAt (partitions : List GraphPartition) (i : Nat) : Bool :=
  match partitions[i]? with
  | some partition => partition.isFused i
  | none => false

/-- The positions of the fused partitions, increasing. -/
def fusedIndices (partitions : List GraphPartition) : List Nat :=
  (List.range partitions.length).filter (fusedAt partitions)

/-- A recorded call belongs to a partition of the vector, and its map is what the input loop
computes from that partition's inputs on the graph the call receives. -/
def FuseCall.fromPartition (env : Collaborators) (call : FuseCall) : Prop :=
  ∃ partition, env.partitions[call.partitionIndex]? = some partition ∧
    populateTransferable call.graph env.requiredInitializerMap env.initializerPartitionMap
      partition.GetInputs [] = some call.isInitializerTransferable

/-- The assertion of line 84 holds on a graph: every initialized tensor has an entry in
`initializerPartitionMap`. -/
def assertHolds (env : Collaborators) (graph : Graph) : Prop :=
  ∀ name tensor, graph.GetInitializedTensor name = some tensor →
    (List.lookup tensor env.initializerPartitionMap).isSome = true

/-! ### A small session, used to run the definitions -/

/-- Four partitions: a fused one, one merged into it, a DML partition that is not a graph
partition, and a second fused one. -/
def demoPartitions : List GraphPartition :=
  [ { GetRootMergedPartition := 0, IsDmlPartition := true, IsDmlGraphPartition := true,
      GetInputs := ["w", "x", "s"] },
    { GetRootMergedPartition := 0, IsDmlPartition := true, IsDmlGraphPartition := true,
      GetInputs := ["w"] },
    { GetRootMergedPartition := 2, IsDmlPartition := true, IsDmlGraphPartition := false,
      GetInputs := [] },
    { GetRootMergedPartition := 3, IsDmlPartition := true, IsDmlGraphPartition := true,
      GetInputs := ["s", "r"] } ]

/-- Collaborator results for `demoPartitions`: `w` is used by partition 0 alone, `s` and `r`
are shared, and `r` is required. Fusing appends the partition index to the graph's nodes. -/
def demoEnv : Collaborators where
  partitions := demoPartitions
  requiredInitializerMap := ["r"]
  initializerPartitionMap := [(100, [0]), (101, [0, 3]), (102, [3, 5])]
  FusePartitionAndRegisterKernel := fun call graph =>
    { graph with nodes := graph.nodes ++ [call.partitionIndex] }

/-- A graph with three initializers. -/
def demoGraph : Graph where
  initializedTensors := [("w", 100), ("s", 101), ("r", 102)]
  nodes := []

/-- What `ApplyImpl` leaves behind on the demo session, started with counter 7. -/
def demoResult : ApplyResult where
  status := Status.OK
  graph := { initializedTensors := [("w", 100), ("s", 101), ("r", 102)], nodes := [0, 3] }
  modified := false
  provider := ⟨9⟩
  calls :=
    [ { partitionIndex := 0, graph := demoGraph, partitionKernelPrefix := "7_",
        isInitializerTransferable := [("w", (100, true))] },
      { partitionIndex := 3,
        graph := { initializedTensors := [("w", 100), ("s", 101), ("r", 102)], nodes := [0] },
        partitionKernelPrefix := "8_",
        isInitializerTransferable := [("r", (102, false))] } ]

/-- The first call recorded in `demoResult`. -/
def demoCall : FuseCall :=
  { partitionIndex := 0, graph := demoGraph, partitionKernelPrefix := "7_",
    isInitializerTransferable := [("w", (100, true))] }

end Dml

namespace onnxruntime.contrib.transformers

/-! ## The search behind `BeamSearch::Compute`

`Init` and `Compute` are only declared in `beam_search.h`; their bodies are in files that are
not among the sources. Everything in this section is modelled from the specification. -/

/-- Modelled from the spec: the error taxonomy of section 7 (the bodies that raise them are not
among the sources). -/
inductive GenerationError where
  | ConfigurationError
  | ExecutionError
  | NumericAnomaly
  | ResourceError
  deriving DecidableEq, Repr

/-- Modelled from the spec: the immutable `SearchConfiguration` of section 3, built once per
request from parameters that passed validation. `batch size` is the number of prompts. -/
structure SearchConfiguration where
  vocab_size : Nat
  num_beams : Nat
  num_return_sequences : Nat
  min_length : Nat
  max_length : Nat
  length_penalty : Int
  repetition_penalty : Int
  eos_token_id : Nat
  pad_token_id : Nat
  vocab_allow : Option (List Nat)
  vocab_deny : List Nat
  deriving DecidableEq, Repr

/-- Modelled from the spec: configuration validation (section 7, `ConfigurationError`, and the
invariant `1 ≤ R ≤ B`, `min_length ≤ max_length` of section 3); the validating code is not
among the sources. -/
def BeamSearchParameters.Validate (p : BeamSearchParameters) :
    Except GenerationError SearchConfiguration :=
  if p.num_beams < 1 then .error .ConfigurationError
  else if p.num_return_sequences < 1 then .error .ConfigurationError
  else if p.num_return_sequences > p.num_beams then .error .ConfigurationError
  else if p.min_length > p.max_length then .error .ConfigurationError
  else .ok
    { vocab_size := p.vocab_size
      num_beams := p.num_beams.toNat
      num_return_sequences := p.num_return_sequences.toNat
      min_length := p.min_length
      max_length := p.max_length
      length_penalty := p.length_penalty
      repetition_penalty := p.repetition_penalty
      eos_token_id := p.eos_token_id
      pad_token_id := p.pad_token_id
      vocab_allow := p.vocab_allow
      vocab_deny := p.vocab_deny }

/-- Modelled from the spec: a log-probability or score, in fixed-point units, with the value
`−∞` that masking forces (section 4.2). -/
inductive LogProb where
  | negInf
  | fin (v : Int)
  deriving DecidableEq, Repr

/-- Modelled from the spec: score accumulation is addition; `−∞` absorbs. -/
def LogProb.add : LogProb → LogProb → LogProb
  | .fin a, .fin b => .fin (a + b)
  | _, _ => .negInf

/-- Modelled from the spec: the order of scores; `−∞` is below every finite value. -/
def LogProb.le : LogProb → LogProb → Bool
  | .negInf, _ => true
  | .fin _, .negInf => false
  | .fin a, .fin b => decide (a ≤ b)

/-- Whether a score is not `−∞`. -/
def LogProb.isFinite : LogProb → Bool
  | .negInf => false
  | .fin _ => true

/-- Modelled from the spec: the two numeric operations that are floating-point in the
operator, as parameters: the repetition penalty applied to a log-probability (section 4.2,
step 4) and the length-penalty normalization `cumulative_score / (length ^ length_penalty)`
(section 4.3), each taking the configured penalty first. -/
structure Numerics where
  penalize : Int → Int → Int
  normalize : Int → Int → Nat → Int

/-- Modelled from the spec: a `Hypothesis` (section 3): emitted token ids, cumulative score,
finished flag and the step at which it finished. -/
structure Hypothesis where
  tokens : List Nat
  score : LogProb
  finished : Bool
  finished_step : Option Nat
  deriving DecidableEq, Repr

/-- Modelled from the spec: a `BeamGroup`, the hypotheses of one batch item. -/
abbrev BeamGroup := List Hypothesis

/-- Modelled from the spec: the `GenerationState`: all beam groups of the batch and the step
counter. The live feeds are the token sequences of the groups. -/
structure GenerationState where
  groups : List BeamGroup
  step : Nat
  deriving DecidableEq, Repr

/-- Modelled from the spec: the bound `SubgraphAdapter` seen through `Run` followed by
`ExtractLogits` and the log-softmax of section 4.2 step 1: from the step and the feeds (the
token sequences per batch item and beam) either a failure (`none`) or the normalized
log-probabilities, indexed by batch item, beam slot and token. -/
structure SubgraphAdapter where
  Run : Nat → List (List (List Nat)) → Option (Nat → Nat → Nat → Int)

/-- Modelled from the spec: vocabulary masking (section 4.2, step 2): a token is selectable
when it is on the allow-list, if there is one, and not on the deny-list. -/
def SearchConfiguration.allowed (cfg : SearchConfiguration) (token : Nat) : Bool :=
  (match cfg.vocab_allow with
    | none => true
    | some allow => allow.contains token) && !cfg.vocab_deny.contains token

/-- Modelled from the spec: the `LogitsProcessor` of section 4.2 for one hypothesis and one
token, steps 2 to 4: vocabulary masking, minimum-length enforcement on the end-of-sequence
token, repetition penalty on tokens of the history. -/
def LogitsProcessor (cfg : SearchConfiguration) (num : Numerics) (h : Hypothesis)
    (log_probs : Nat → Int) (token : Nat) : LogProb :=
  if !cfg.allowed token then .negInf
  else if token = cfg.eos_token_id ∧ h.tokens.length < cfg.min_length then .negInf
  else if token ∈ h.tokens then .fin (num.penalize cfg.repetition_penalty (log_probs token))
  else .fin (log_probs token)

/-- Whether a token is unmasked for a hypothesis: allowed by the vocabulary mask and not an
end-of-sequence token held back by minimum-length enforcement (section 4.2, steps 2 and 3). -/
def SearchConfiguration.unmasked (cfg : SearchConfiguration) (h : Hypothesis) (token : Nat) :
    Bool :=
  cfg.allowed token &&
    !(decide (token = cfg.eos_token_id) && decide (h.tokens.length < cfg.min_length))

/-- Modelled from the spec: a candidate of the selection round: the parent beam slot, the
proposed token (`none` for the placeholder of a finished parent) and the hypothesis it would
become, whose score is the candidate's score. -/
structure Candidate where
  parent : Nat
  token : Option Nat
  result : Hypothesis
  deriving DecidableEq, Repr

/-- Modelled from the spec: appending a chosen token (sections 4.2 step 5 and 4.3): the score
is the parent's plus the token's log-probability; the hypothesis becomes finished when the
token is the end-of-sequence token or when its length reaches `max_length`. -/
def Hypothesis.extend (cfg : SearchConfiguration) (step : Nat) (h : Hypothesis) (token : Nat)
    (log_prob : LogProb) : Hypothesis :=
  let finished :=
    decide (token = cfg.eos_token_id) || decide (cfg.max_length ≤ h.tokens.length + 1)
  { tokens := h.tokens ++ [token]
    score := h.score.add log_prob
    finished := finished
    finished_step := if finished then some step else none }

/-- Modelled from the spec: what one hypothesis proposes (section 4.3): a finished one
proposes exactly itself, unchanged; an unfinished one proposes `vocab_size` continuations in
token order. -/
def propose (cfg : SearchConfiguration) (num : Numerics) (step : Nat) (log_probs : Nat → Int)
    (parent : Nat) (h : Hypothesis) : List Candidate :=
  if h.finished then [{ parent := parent, token := none, result := h }]
  else (List.range cfg.vocab_size).map fun token =>
    { parent := parent, token := some token,
      result := h.extend cfg step token (LogitsProcessor cfg num h log_probs token) }

/-- Modelled from the spec: the candidates of a batch item in original candidate order, beam
slot major, starting at slot `parent`. -/
def proposeAll (cfg : SearchConfiguration) (num : Numerics) (step : Nat)
    (log_probs : Nat → Nat → Int) : Nat → BeamGroup → List Candidate
  | _, [] => []
  | parent, h :: rest =>
    propose cfg num step (log_probs parent) parent h ++
      proposeAll cfg num step log_probs (parent + 1) rest

/-- Modelled from the spec: `a` is selected no later than `b`: its score is at least as
high. -/
def Candidate.atLeast (a b : Candidate) : Prop := b.result.score.le a.result.score = true

instance : DecidableRel Candidate.atLeast := fun a b =>
  inferInstanceAs (Decidable (b.result.score.le a.result.score = true))

instance : IsTotal Candidate Candidate.atLeast :=
  ⟨fun a b => by
    unfold Candidate.atLeast
    cases a.result.score <;> cases b.result.score <;> simp [LogProb.le]
    exact Int.le_total _ _⟩

instance : IsTrans Candidate Candidate.atLeast :=
  ⟨fun a b c => by
    unfold Candidate.atLeast
    cases a.result.score <;> cases b.result.score <;> cases c.result.score <;>
      simp [LogProb.le]
    exact fun h1 h2 => Int.le_trans h2 h1⟩

/-- Modelled from the spec: `TopK` (section 6) over the candidates of a batch item: the `k`
highest-scoring selectable candidates, score descending, ties broken by the lower original
candidate index (the sort is stable). A candidate for a masked token has the score `−∞` and
is never selectable (section 4.2): it is ranked last and discarded. -/
def TopK (k : Nat) (candidates : List Candidate) : List Candidate :=
  ((candidates.insertionSort Candidate.atLeast).filter fun c =>
    c.result.score.isFinite).take k

/-- Modelled from the spec: the `CandidateSelector` of section 4.3 for one batch item: the
top `2 × B` selectable candidates by score form the pool, and the first `B` hypotheses of the
pool become the next beam group. Hypotheses are slots: two candidates are distinct when they
differ in parent slot or token, and candidates with equal resulting token sequences are not
merged (section 9 leaves that rule open). A beam group has exactly `B` hypotheses (section 3)
and a masked token is never selected (section 4.2), so when fewer than `B` candidates are
selectable there is no next group: the result is `none`, a fatal error of the step. -/
def CandidateSelector (cfg : SearchConfiguration) (num : Numerics) (step : Nat)
    (log_probs : Nat → Nat → Int) (group : BeamGroup) : Option BeamGroup :=
  let pool := TopK (2 * cfg.num_beams) (proposeAll cfg num step log_probs 0 group)
  if pool.length < cfg.num_beams then none
  else some ((pool.take cfg.num_beams).map fun c => c.result)

/-- Whether every hypothesis of the group is finished. -/
def BeamGroup.allFinished (group : BeamGroup) : Bool := group.all fun h => h.finished

/-- Modelled from the spec: the selection round for one batch item; a batch item whose group
is entirely finished is skipped and keeps its slots. -/
def stepGroup (cfg : SearchConfiguration) (num : Numerics) (step : Nat)
    (log_probs : Nat → Nat → Int) (group : BeamGroup) : Option BeamGroup :=
  if group.allFinished then some group
  else CandidateSelector cfg num step log_probs group

/-- Modelled from the spec: one selection round over the batch, from batch item `batch` on;
`none` when the selection of some batch item fails. -/
def stepGroups (cfg : SearchConfiguration) (num : Numerics) (step : Nat)
    (log_probs : Nat → Nat → Nat → Int) : Nat → List BeamGroup → Option (List BeamGroup)
  | _, [] => some []
  | batch, group :: rest =>
    match stepGroup cfg num step (log_probs batch) group,
        stepGroups cfg num step log_probs (batch + 1) rest with
    | some group', some rest' => some (group' :: rest')
    | _, _ => none

namespace Orchestrator

/-- Modelled from the spec: `Initializing` (section 4.5): one beam group per batch item, the
prompt replicated `B` ways with score 0. A prompt that already has `max_length` tokens is
finished without appending. -/
def Initialize (cfg : SearchConfiguration) (prompts : List (List Nat)) : GenerationState :=
  { groups := prompts.map fun prompt =>
      List.replicate cfg.num_beams
        { tokens := prompt, score := .fin 0,
          finished := decide (cfg.max_length ≤ prompt.length),
          finished_step := if cfg.max_length ≤ prompt.length then some 0 else none }
    step := 0 }

/-- Modelled from the spec: the guard of `Stepping`: `step < max_length` and not all batch
items fully finished. -/
def continues (cfg : SearchConfiguration) (s : GenerationState) : Bool :=
  decide (s.step < cfg.max_length) && !(s.groups.all fun g => g.allFinished)

/-- Modelled from the spec: one iteration of `Stepping`: run the subgraph, process the logits,
select the candidates, update the feeds, increment the step. `none` is a fatal error: a failed
`Run`, or a selection that cannot fill a beam group from selectable candidates. -/
def Step (cfg : SearchConfiguration) (num : Numerics) (model : SubgraphAdapter)
    (s : GenerationState) : Option GenerationState :=
  match model.Run s.step (s.groups.map fun g => g.map fun h => h.tokens) with
  | none => none
  | some log_probs =>
    match stepGroups cfg num s.step log_probs 0 s.groups with
    | none => none
    | some groups => some { groups := groups, step := s.step + 1 }

/-- Modelled from the spec: the `Stepping` loop. Returns the number of subgraph runs and the
state at loop exit, or `none` when a step failed. The guard bounds the iterations by
`max_length`, so `fuel = max_length - step` is enough. -/
def Stepping (cfg : SearchConfiguration) (num : Numerics) (model : SubgraphAdapter) :
    Nat → Nat → GenerationState → Nat × Option GenerationState
  | 0, runs, s => (runs, some s)
  | fuel + 1, runs, s =>
    if continues cfg s then
      match Step cfg num model s with
      | none => (runs + 1, none)
      | some s' => Stepping cfg num model fuel (runs + 1) s'
    else (runs, some s)

end Orchestrator

/-- Modelled from the spec: the states of `Stepping`: the initial state, and the state after
an iteration taken from a reachable state whose guard holds. -/
inductive Reachable (cfg : SearchConfiguration) (num : Numerics) (model : SubgraphAdapter)
    (prompts : List (List Nat)) : GenerationState → Prop where
  | init : Reachable cfg num model prompts (Orchestrator.Initialize cfg prompts)
  | step (s s' : GenerationState) :
      Reachable cfg num model prompts s → Orchestrator.continues cfg s = true →
      Orchestrator.Step cfg num model s = some s' → Reachable cfg num model prompts s'

/-- The invariant of the stepping loop for a hypothesis of the batch item with the given
prompt, at the given step: its score is finite; it extends the prompt; an appended
end-of-sequence token sits at a position from `min_length` on; a finished hypothesis has at
least `min_length` tokens; an unfinished one has at least `step` and fewer than `max_length`
tokens; no hypothesis is longer than `max_length`, unless the prompt already is. -/
def Hypothesis.wellFormed (cfg : SearchConfiguration) (prompt : List Nat) (step : Nat)
    (h : Hypothesis) : Prop :=
  h.score.isFinite = true ∧
  (∃ generated, h.tokens = prompt ++ generated) ∧
  (∀ i, prompt.length ≤ i → h.tokens[i]? = some cfg.eos_token_id → cfg.min_length ≤ i) ∧
  (h.finished = true → cfg.min_length ≤ h.tokens.length) ∧
  (h.finished = false → step ≤ h.tokens.length ∧ h.tokens.length < cfg.max_length) ∧
  h.tokens.length ≤ max cfg.max_length prompt.length

/-- The invariant of the stepping loop for a state: every hypothesis of every batch item is
well formed for the prompt of its batch item. -/
def GenerationState.wellFormed (cfg : SearchConfiguration) (prompts : List (List Nat))
    (s : GenerationState) : Prop :=
  ∀ (b : Nat) (prompt : List Nat) (group : BeamGroup),
    prompts[b]? = some prompt → s.groups[b]? = some group →
    ∀ h ∈ group, h.wellFormed cfg prompt s.step

namespace GreedyDecoding

/-- Modelled from the spec: the log-probability standard greedy decoding compares: the
model's log-probability of the token, after the repetition penalty when the token is in the
history of the hypothesis (section 4.2, step 4). -/
def logProbability (cfg : SearchConfiguration) (num : Numerics) (h : Hypothesis)
    (log_probs : Nat → Int) (token : Nat) : Int :=
  if token ∈ h.tokens then num.penalize cfg.repetition_penalty (log_probs token)
  else log_probs token

/-- Modelled from the spec: one comparison of the greedy scan: a masked token is passed over;
an unmasked token replaces the best token so far only when its log-probability is strictly
higher, so the lowest index wins a tie. -/
def keepBest (cfg : SearchConfiguration) (num : Numerics) (h : Hypothesis)
    (log_probs : Nat → Int) (best : Option Nat) (token : Nat) : Option Nat :=
  if cfg.unmasked h token then
    match best with
    | none => some token
    | some b =>
      if logProbability cfg num h log_probs b < logProbability cfg num h log_probs token then
        some token
      else some b
  else best

/-- Modelled from the spec: standard greedy decoding (section 8, greedy equivalence), written
from the words of the property and not from the selector: the single highest-log-probability
unmasked token of the vocabulary, found by a scan in index order; `none` when every token is
masked. -/
def chooseToken (cfg : SearchConfiguration) (num : Numerics) (h : Hypothesis)
    (log_probs : Nat → Int) : Option Nat :=
  (List.range cfg.vocab_size).foldl (keepBest cfg num h log_probs) none

end GreedyDecoding

/-- Modelled from the spec: one returned sequence: the tokens up to the actual length, and the
length-penalty-adjusted score. -/
structure OutputSequence where
  tokens : List Nat
  score : LogProb
  deriving DecidableEq, Repr

/-- Modelled from the spec: the adjusted score of a hypothesis,
`cumulative_score / (length ^ length_penalty)`, through `Numerics.normalize`. -/
def Hypothesis.adjusted_score (cfg : SearchConfiguration) (num : Numerics) (h : Hypothesis) :
    LogProb :=
  match h.score with
  | .negInf => .negInf
  | .fin v => .fin (num.normalize cfg.length_penalty v h.tokens.length)

/-- The order of the final ranking: `a` is emitted no later than `b`. -/
def Hypothesis.rankedBefore (cfg : SearchConfiguration) (num : Numerics) (a b : Hypothesis) :
    Prop :=
  (b.adjusted_score cfg num).le (a.adjusted_score cfg num) = true

instance (cfg : SearchConfiguration) (num : Numerics) :
    DecidableRel (Hypothesis.rankedBefore cfg num) := fun a b =>
  inferInstanceAs (Decidable ((b.adjusted_score cfg num).le (a.adjusted_score cfg num) = true))

instance (cfg : SearchConfiguration) (num : Numerics) :
    IsTotal Hypothesis (Hypothesis.rankedBefore cfg num) :=
  ⟨fun a b => by
    unfold Hypothesis.rankedBefore
    cases a.adjusted_score cfg num <;> cases b.adjusted_score cfg num <;> simp [LogProb.le]
    exact Int.le_total _ _⟩

instance (cfg : SearchConfiguration) (num : Numerics) :
    IsTrans Hypothesis (Hypothesis.rankedBefore cfg num) :=
  ⟨fun a b c => by
    unfold Hypothesis.rankedBefore
    cases a.adjusted_score cfg num <;> cases b.adjusted_score cfg num <;>
      cases c.adjusted_score cfg num <;> simp [LogProb.le]
    exact fun h1 h2 => Int.le_trans h2 h1⟩

namespace Orchestrator

/-- Modelled from the spec: `Finalizing` for one batch item: rank by adjusted score,
descending, take the top `R`, truncate to `max_length`. -/
def FinalizeGroup (cfg : SearchConfiguration) (num : Numerics) (group : BeamGroup) :
    List OutputSequence :=
  ((group.insertionSort (Hypothesis.rankedBefore cfg num)).take cfg.num_return_sequences).map
    fun h => { tokens := h.tokens.take cfg.max_length, score := h.adjusted_score cfg num }

/-- Modelled from the spec: `Finalizing` over the batch. -/
def Finalize (cfg : SearchConfiguration) (num : Numerics) (s : GenerationState) :
    List (List OutputSequence) :=
  s.groups.map (FinalizeGroup cfg num)

end Orchestrator

/-- Modelled from the spec: a row of the sequences tensor: the tokens right-padded with the pad
token to `max_length`. -/
def OutputSequence.row (cfg : SearchConfiguration) (seq : OutputSequence) : List Nat :=
  seq.tokens ++ List.replicate (cfg.max_length - seq.tokens.length) cfg.pad_token_id

/-- What a call of `Compute` leaves behind: how often the subgraph was run, and the error or
the sequences per batch item. -/
structure ComputeResult where
  runs : Nat
  outcome : Except GenerationError (List (List OutputSequence))

/-- Modelled from the spec: `BeamSearch::Compute` as the Orchestrator state machine of
section 4.5 on the kernel's `parameters_`: validate, initialize, step, finalize. -/
def BeamSearch.Compute (self : BeamSearch) (num : Numerics) (model : SubgraphAdapter)
    (prompts : List (List Nat)) : ComputeResult :=
  match self.parameters_.Validate with
  | .error e => { runs := 0, outcome := .error e }
  | .ok cfg =>
    match Orchestrator.Stepping cfg num model cfg.max_length 0
        (Orchestrator.Initialize cfg prompts) with
    | (runs, none) => { runs := runs, outcome := .error .ExecutionError }
    | (runs, some s) => { runs := runs, outcome := .ok (Orchestrator.Finalize cfg num s) }

/-! ### A small session, used to run the definitions -/

/-- Two beams over the vocabulary `A B C D EOS` as `0 1 2 3 4`, `min_length = 2`,
`max_length = 3`. -/
def demoParameters : BeamSearchParameters where
  vocab_size := 5
  num_beams := 2
  num_return_sequences := 2
  min_length := 2
  max_length := 3
  length_penalty := 1
  repetition_penalty := 1
  eos_token_id := 4
  pad_token_id := 0
  vocab_allow := none
  vocab_deny := []

/-- The validated form of `demoParameters`. -/
def demoConfig : SearchConfiguration where
  vocab_size := 5
  num_beams := 2
  num_return_sequences := 2
  min_length := 2
  max_length := 3
  length_penalty := 1
  repetition_penalty := 1
  eos_token_id := 4
  pad_token_id := 0
  vocab_allow := none
  vocab_deny := []

/-- The demo configuration with a single beam. -/
def demoGreedyConfig : SearchConfiguration :=
  { demoConfig with num_beams := 1, num_return_sequences := 1 }

/-- The demo parameters with a single beam; `demoGreedyConfig` is their validated form. -/
def demoGreedyParameters : BeamSearchParameters :=
  { demoParameters with num_beams := 1, num_return_sequences := 1 }

/-- Numeric operations for the session: no repetition penalty, no length normalization. -/
def demoNumerics : Numerics where
  penalize := fun _ v => v
  normalize := fun _ v _ => v

/-- A model that never fails; for beam slot `i` it favours token `i` (-1) over token `i + 1`
(-2) over the rest (-10), in tenths. -/
def demoModel : SubgraphAdapter where
  Run := fun _ _ => some fun _ beam token =>
    if token = beam then -1 else if token = beam + 1 then -2 else -10

/-- The log-probabilities `demoModel` returns at every step. -/
def demoLogProbs : Nat → Nat → Nat → Int := fun _ beam token =>
  if token = beam then -1 else if token = beam + 1 then -2 else -10

end onnxruntime.contrib.transformers

/-! # Theorems -/

namespace onnxruntime.contrib.transformers.BeamSearch

/-- C6 (as stated, refuted): on a freshly constructed kernel, after `SetDeviceHelpers`,
`SetDeviceHelpers_Gpt` and `SetDeviceHelpers_EncoderDecoder` have each been called with
non-empty functions, the member `create_encoder_inputs_func_` is still empty, so it is not
the case that the three setters always leave every device function member bound. -/
theorem setters_leave_create_encoder_inputs_empty :
    ¬ (∀ (self : BeamSearch)
        (a1 : DeviceFunc .AddToFeedsFunc) (a2 : DeviceFunc .TopkFunc)
        (a3 : DeviceFunc .DeviceCopyFunc_float) (a4 : DeviceFunc .DeviceCopyFunc_int32)
        (a5 : DeviceFunc .ProcessLogitsFunc_float) (a6 : DeviceFunc .ProcessLogitsFunc_fp16)
        (a7 : DeviceFunc .InitBeamStateFunc_float) (a8 : DeviceFunc .InitBeamStateFunc_fp16)
        (g1 : DeviceFunc .UpdateGptFeedsFunc_float) (g2 : DeviceFunc .UpdateGptFeedsFunc_fp16)
        (e1 : DeviceFunc .UpdateDecoderFeedsFunc_float)
        (e2 : DeviceFunc .UpdateDecoderFeedsFunc_fp16)
        (e3 : DeviceFunc .ExpandBufferFunc_int32) (e4 : DeviceFunc .ExpandBufferFunc_float)
        (e5 : DeviceFunc .ExpandBufferFunc_fp16),
        a1.bound = true → a2.bound = true → a3.bound = true → a4.bound = true →
        a5.bound = true → a6.bound = true → a7.bound = true → a8.bound = true →
        g1.bound = true → g2.bound = true → e1.bound = true → e2.bound = true →
        e3.bound = true → e4.bound = true → e5.bound = true →
        (self.setAllDeviceHelpers a1 a2 a3 a4 a5 a6 a7 a8 g1 g2 e1 e2 e3 e4 e5).allDeviceFuncsBound
          = true) := by
  intro h
  have h0 := h (construct demoParameters) ⟨some 1⟩ ⟨some 2⟩ ⟨some 3⟩ ⟨some 4⟩ ⟨some 5⟩ ⟨some 6⟩ ⟨some 7⟩
    ⟨some 8⟩ ⟨some 9⟩ ⟨some 10⟩ ⟨some 11⟩ ⟨some 12⟩ ⟨some 13⟩ ⟨some 14⟩ ⟨some 15⟩
    rfl rfl rfl rfl rfl rfl rfl rfl rfl rfl rfl rfl rfl rfl rfl
  exact absurd h0 (by decide)

/-- C6 (amended): after the three setters have each been called with non-empty functions,
the fifteen device function members they assign are bound, and `create_encoder_inputs_func_`,
which no setter takes as an argument, has the value it had before (so it is bound afterwards
exactly when it was bound before). -/
theorem setters_bind_all_but_create_encoder_inputs (self : BeamSearch)
    (a1 : DeviceFunc .AddToFeedsFunc) (a2 : DeviceFunc .TopkFunc)
    (a3 : DeviceFunc .DeviceCopyFunc_float) (a4 : DeviceFunc .DeviceCopyFunc_int32)
    (a5 : DeviceFunc .ProcessLogitsFunc_float) (a6 : DeviceFunc .ProcessLogitsFunc_fp16)
    (a7 : DeviceFunc .InitBeamStateFunc_float) (a8 : DeviceFunc .InitBeamStateFunc_fp16)
    (g1 : DeviceFunc .UpdateGptFeedsFunc_float) (g2 : DeviceFunc .UpdateGptFeedsFunc_fp16)
    (e1 : DeviceFunc .UpdateDecoderFeedsFunc_float)
    (e2 : DeviceFunc .UpdateDecoderFeedsFunc_fp16)
    (e3 : DeviceFunc .ExpandBufferFunc_int32) (e4 : DeviceFunc .ExpandBufferFunc_float)
    (e5 : DeviceFunc .ExpandBufferFunc_fp16)
    (h1 : a1.bound = true) (h2 : a2.bound = true) (h3 : a3.bound = true)
    (h4 : a4.bound = true) (h5 : a5.bound = true) (h6 : a6.bound = true)
    (h7 : a7.bound = true) (h8 : a8.bound = true) (h9 : g1.bound = true)
    (h10 : g2.bound = true) (h11 : e1.bound = true) (h12 : e2.bound = true)
    (h13 : e3.bound = true) (h14 : e4.bound = true) (h15 : e5.bound = true) :
    (self.setAllDeviceHelpers a1 a2 a3 a4 a5 a6 a7 a8 g1 g2 e1 e2 e3 e4 e5).deviceFuncsBound
        = [true, true, true, true, true, true, true, true, true, true,
           self.create_encoder_inputs_func_.bound, true, true, true, true, true] ∧
      (self.setAllDeviceHelpers a1 a2 a3 a4 a5 a6 a7 a8 g1 g2 e1 e2 e3 e4
          e5).create_encoder_inputs_func_ = self.create_encoder_inputs_func_ := by
  refine ⟨?_, rfl⟩
  simp only [deviceFuncsBound, setAllDeviceHelpers, SetDeviceHelpers, SetDeviceHelpers_Gpt,
    SetDeviceHelpers_EncoderDecoder, h1, h2, h3, h4, h5, h6, h7, h8, h9, h10, h11, h12, h13,
    h14, h15]

/-- Witness for `setters_bind_all_but_create_encoder_inputs`: a fresh kernel and fifteen bound
functions. -/
theorem setters_bind_all_but_create_encoder_inputs_witness :
    ((construct demoParameters).setAllDeviceHelpers ⟨some 1⟩ ⟨some 2⟩ ⟨some 3⟩ ⟨some 4⟩ ⟨some 5⟩ ⟨some 6⟩
        ⟨some 7⟩ ⟨some 8⟩ ⟨some 9⟩ ⟨some 10⟩ ⟨some 11⟩ ⟨some 12⟩ ⟨some 13⟩ ⟨some 14⟩
        ⟨some 15⟩).deviceFuncsBound
        = [true, true, true, true, true, true, true, true, true, true,
           (construct demoParameters).create_encoder_inputs_func_.bound, true, true, true, true, true] ∧
      ((construct demoParameters).setAllDeviceHelpers ⟨some 1⟩ ⟨some 2⟩ ⟨some 3⟩ ⟨some 4⟩ ⟨some 5⟩ ⟨some 6⟩
        ⟨some 7⟩ ⟨some 8⟩ ⟨some 9⟩ ⟨some 10⟩ ⟨some 11⟩ ⟨some 12⟩ ⟨some 13⟩ ⟨some 14⟩
        ⟨some 15⟩).create_encoder_inputs_func_ = (construct demoParameters).create_encoder_inputs_func_ :=
  setters_bind_all_but_create_encoder_inputs (construct demoParameters) ⟨some 1⟩ ⟨some 2⟩ ⟨some 3⟩ ⟨some 4⟩
    ⟨some 5⟩ ⟨some 6⟩ ⟨some 7⟩ ⟨some 8⟩ ⟨some 9⟩ ⟨some 10⟩ ⟨some 11⟩ ⟨some 12⟩ ⟨some 13⟩
    ⟨some 14⟩ ⟨some 15⟩ rfl rfl rfl rfl rfl rfl rfl rfl rfl rfl rfl rfl rfl rfl rfl

/-- C7: `SetDeviceHelpers` stores each of its eight arguments in the member of the same name
and changes no other member; `SetDeviceHelpers_Gpt` changes exactly the two GPT feed-update
members; `SetDeviceHelpers_EncoderDecoder` changes exactly the two decoder feed-update members
and the three expand-buffer members. The three setters commute pairwise, and each is
idempotent when called twice with the same arguments. -/
theorem setters_frame_commute_idempotent (self : BeamSearch)
    (a1 : DeviceFunc .AddToFeedsFunc) (a2 : DeviceFunc .TopkFunc)
    (a3 : DeviceFunc .DeviceCopyFunc_float) (a4 : DeviceFunc .DeviceCopyFunc_int32)
    (a5 : DeviceFunc .ProcessLogitsFunc_float) (a6 : DeviceFunc .ProcessLogitsFunc_fp16)
    (a7 : DeviceFunc .InitBeamStateFunc_float) (a8 : DeviceFunc .InitBeamStateFunc_fp16)
    (g1 : DeviceFunc .UpdateGptFeedsFunc_float) (g2 : DeviceFunc .UpdateGptFeedsFunc_fp16)
    (e1 : DeviceFunc .UpdateDecoderFeedsFunc_float)
    (e2 : DeviceFunc .UpdateDecoderFeedsFunc_fp16)
    (e3 : DeviceFunc .ExpandBufferFunc_int32) (e4 : DeviceFunc .ExpandBufferFunc_float)
    (e5 : DeviceFunc .ExpandBufferFunc_fp16) :
    -- SetDeviceHelpers: the eight members written
    ((self.SetDeviceHelpers a1 a2 a3 a4 a5 a6 a7 a8).add_to_feeds_func_ = a1 ∧
      (self.SetDeviceHelpers a1 a2 a3 a4 a5 a6 a7 a8).topk_func_ = a2 ∧
      (self.SetDeviceHelpers a1 a2 a3 a4 a5 a6 a7 a8).device_copy_func_ = a3 ∧
      (self.SetDeviceHelpers a1 a2 a3 a4 a5 a6 a7 a8).device_copy_int32_func_ = a4 ∧
      (self.SetDeviceHelpers a1 a2 a3 a4 a5 a6 a7 a8).process_logits_func_ = a5 ∧
      (self.SetDeviceHelpers a1 a2 a3 a4 a5 a6 a7 a8).process_logits_fp16_func_ = a6 ∧
      (self.SetDeviceHelpers a1 a2 a3 a4 a5 a6 a7 a8).init_beam_state_func_ = a7 ∧
      (self.SetDeviceHelpers a1 a2 a3 a4 a5 a6 a7 a8).init_beam_state_fp16_func_ = a8) ∧
    -- SetDeviceHelpers: everything else is as before
    (self.SetDeviceHelpers a1 a2 a3 a4 a5 a6 a7 a8 =
      { self with
        add_to_feeds_func_ := (self.SetDeviceHelpers a1 a2 a3 a4 a5 a6 a7 a8).add_to_feeds_func_
        topk_func_ := (self.SetDeviceHelpers a1 a2 a3 a4 a5 a6 a7 a8).topk_func_
        device_copy_func_ := (self.SetDeviceHelpers a1 a2 a3 a4 a5 a6 a7 a8).device_copy_func_
        device_copy_int32_func_ :=
          (self.SetDeviceHelpers a1 a2 a3 a4 a5 a6 a7 a8).device_copy_int32_func_
        process_logits_func_ :=
          (self.SetDeviceHelpers a1 a2 a3 a4 a5 a6 a7 a8).process_logits_func_
        process_logits_fp16_func_ :=
          (self.SetDeviceHelpers a1 a2 a3 a4 a5 a6 a7 a8).process_logits_fp16_func_
        init_beam_state_func_ :=
          (self.SetDeviceHelpers a1 a2 a3 a4 a5 a6 a7 a8).init_beam_state_func_
        init_beam_state_fp16_func_ :=
          (self.SetDeviceHelpers a1 a2 a3 a4 a5 a6 a7 a8).init_beam_state_fp16_func_ }) ∧
    -- SetDeviceHelpers_Gpt
    ((self.SetDeviceHelpers_Gpt g1 g2).update_gpt_feeds_func_ = g1 ∧
      (self.SetDeviceHelpers_Gpt g1 g2).update_gpt_feeds_fp16_func_ = g2) ∧
    (self.SetDeviceHelpers_Gpt g1 g2 =
      { self with
        update_gpt_feeds_func_ := (self.SetDeviceHelpers_Gpt g1 g2).update_gpt_feeds_func_
        update_gpt_feeds_fp16_func_ :=
          (self.SetDeviceHelpers_Gpt g1 g2).update_gpt_feeds_fp16_func_ }) ∧
    -- SetDeviceHelpers_EncoderDecoder
    ((self.SetDeviceHelpers_EncoderDecoder e1 e2 e3 e4 e5).update_decoder_feeds_func_ = e1 ∧
      (self.SetDeviceHelpers_EncoderDecoder e1 e2 e3 e4 e5).update_decoder_feeds_fp16_func_ = e2 ∧
      (self.SetDeviceHelpers_EncoderDecoder e1 e2 e3 e4 e5).expand_buffer_int32_func_ = e3 ∧
      (self.SetDeviceHelpers_EncoderDecoder e1 e2 e3 e4 e5).expand_buffer_float_func_ = e4 ∧
      (self.SetDeviceHelpers_EncoderDecoder e1 e2 e3 e4 e5).expand_buffer_float16_func_ = e5) ∧
    (self.SetDeviceHelpers_EncoderDecoder e1 e2 e3 e4 e5 =
      { self with
        update_decoder_feeds_func_ :=
          (self.SetDeviceHelpers_EncoderDecoder e1 e2 e3 e4 e5).update_decoder_feeds_func_
        update_decoder_feeds_fp16_func_ :=
          (self.SetDeviceHelpers_EncoderDecoder e1 e2 e3 e4 e5).update_decoder_feeds_fp16_func_
        expand_buffer_int32_func_ :=
          (self.SetDeviceHelpers_EncoderDecoder e1 e2 e3 e4 e5).expand_buffer_int32_func_
        expand_buffer_float_func_ :=
          (self.SetDeviceHelpers_EncoderDecoder e1 e2 e3 e4 e5).expand_buffer_float_func_
        expand_buffer_float16_func_ :=
          (self.SetDeviceHelpers_EncoderDecoder e1 e2 e3 e4 e5).expand_buffer_float16_func_ }) ∧
    -- the setters commute
    ((self.SetDeviceHelpers a1 a2 a3 a4 a5 a6 a7 a8).SetDeviceHelpers_Gpt g1 g2 =
      (self.SetDeviceHelpers_Gpt g1 g2).SetDeviceHelpers a1 a2 a3 a4 a5 a6 a7 a8) ∧
    ((self.SetDeviceHelpers a1 a2 a3 a4 a5 a6 a7 a8).SetDeviceHelpers_EncoderDecoder
        e1 e2 e3 e4 e5 =
      (self.SetDeviceHelpers_EncoderDecoder e1 e2 e3 e4 e5).SetDeviceHelpers
        a1 a2 a3 a4 a5 a6 a7 a8) ∧
    ((self.SetDeviceHelpers_Gpt g1 g2).SetDeviceHelpers_EncoderDecoder e1 e2 e3 e4 e5 =
      (self.SetDeviceHelpers_EncoderDecoder e1 e2 e3 e4 e5).SetDeviceHelpers_Gpt g1 g2) ∧
    -- each setter is idempotent
    ((self.SetDeviceHelpers a1 a2 a3 a4 a5 a6 a7 a8).SetDeviceHelpers a1 a2 a3 a4 a5 a6 a7 a8 =
      self.SetDeviceHelpers a1 a2 a3 a4 a5 a6 a7 a8) ∧
    ((self.SetDeviceHelpers_Gpt g1 g2).SetDeviceHelpers_Gpt g1 g2 =
      self.SetDeviceHelpers_Gpt g1 g2) ∧
    ((self.SetDeviceHelpers_EncoderDecoder e1 e2 e3 e4 e5).SetDeviceHelpers_EncoderDecoder
        e1 e2 e3 e4 e5 =
      self.SetDeviceHelpers_EncoderDecoder e1 e2 e3 e4 e5) := by
  refine ⟨⟨rfl, rfl, rfl, rfl, rfl, rfl, rfl, rfl⟩, rfl, ⟨rfl, rfl⟩, rfl,
    ⟨rfl, rfl, rfl, rfl, rfl⟩, rfl, rfl, rfl, rfl, rfl, rfl, rfl⟩

end onnxruntime.contrib.transformers.BeamSearch

namespace Dml

/-! ### Decimal rendering is injective -/

theorem digitChar_val (k : Nat) (hk : k < 10) : (Nat.digitChar k).toNat - 48 = k := by
  interval_cases k <;> rfl

theorem readDigits_toDigitsCore (fuel : Nat) : ∀ (n : Nat) (ds : List Char), n < fuel →
    (Nat.toDigitsCore 10 fuel n ds).foldl (fun a c => a * 10 + (c.toNat - 48)) 0 =
      ds.foldl (fun a c => a * 10 + (c.toNat - 48)) n := by
  induction fuel with
  | zero => intro n ds h; omega
  | succ fuel ih =>
    intro n ds h
    unfold Nat.toDigitsCore
    simp only
    split
    · rename_i h0
      have hn : n < 10 := by
        by_contra hc
        have : 1 ≤ n / 10 := (Nat.one_le_div_iff (by decide)).2 (by omega)
        omega
      simp only [List.foldl_cons, Nat.zero_mul, Nat.zero_add]
      rw [digitChar_val _ (Nat.mod_lt _ (by decide)), Nat.mod_eq_of_lt hn]
    · rename_i h0
      rw [ih (n / 10) _ (by omega)]
      simp only [List.foldl_cons]
      rw [digitChar_val _ (Nat.mod_lt _ (by decide))]
      congr 1
      omega

theorem to_string_injective : Function.Injective to_string := by
  intro a b h
  have h1 : (Nat.toDigits 10 a) = (Nat.toDigits 10 b) := by
    have := congrArg String.data h
    simpa [to_string, Nat.repr, List.asString] using this
  have ha := readDigits_toDigitsCore (a + 1) a [] (by omega)
  have hb := readDigits_toDigitsCore (b + 1) b [] (by omega)
  simp only [List.foldl_nil] at ha hb
  unfold Nat.toDigits at h1
  rw [← ha, ← hb, h1]

theorem kernelPrefix_injective :
    Function.Injective (fun n : Nat => to_string n ++ "_") := by
  intro a b h
  apply to_string_injective
  have := congrArg String.data h
  simp only [String.data_append] at this
  exact String.ext (List.append_cancel_right this)

/-! ### The transferability map -/

theorem TransferMap.find_filter_ne (m : TransferMap) (key k : String) (h : k ≠ key) :
    List.lookup k (m.filter (fun kv => kv.1 != key)) = List.lookup k m := by
  induction m with
  | nil => rfl
  | cons kv m ih =>
    obtain ⟨a, b⟩ := kv
    by_cases hak : a = key
    · subst hak
      have hka : (k == a) = false := by simpa using h
      simp [List.filter_cons, List.lookup_cons, hka, ih]
    · have : (a != key) = true := by simpa using hak
      simp only [List.filter_cons, this, if_true, List.lookup_cons, ih]

theorem TransferMap.find_assign (m : TransferMap) (key k : String) (value : TransferEntry) :
    (m.assign key value).find k = if k = key then some value else m.find k := by
  unfold TransferMap.assign TransferMap.find
  by_cases h : k = key
  · subst h; simp [List.lookup_cons]
  · have hk : (k == key) = false := by simpa using h
    simp only [List.lookup_cons, hk, if_neg h]
    exact TransferMap.find_filter_ne m key k h

/-- What the input loop computes, for an arbitrary starting map. -/
theorem populateTransferable_find (graph : Graph) (req : List String)
    (ipm : List (TensorProto × List Nat)) :
    ∀ (inputs : List String) (m0 m : TransferMap),
      populateTransferable graph req ipm inputs m0 = some m →
      ∀ k, m.find k =
        if k ∈ inputs ∧ (expectedTransferEntry graph req ipm k).isSome then
          expectedTransferEntry graph req ipm k
        else m0.find k := by
  intro inputs
  induction inputs with
  | nil =>
    intro m0 m h k
    simp only [populateTransferable, Option.some.injEq] at h
    simp [h]
  | cons input rest ih =>
    intro m0 m h k
    unfold populateTransferable at h
    cases hg : graph.GetInitializedTensor input with
    | none =>
      simp only [hg] at h
      rw [ih _ _ h k]
      by_cases hk : k = input
      · subst hk
        simp [expectedTransferEntry, hg]
      · simp [hk]
    | some tensor =>
      simp only [hg] at h
      cases hl : List.lookup tensor ipm with
      | none => simp [hl] at h
      | some users =>
        simp only [hl] at h
        by_cases hu : users.length > 1
        · simp only [hu, if_true] at h
          by_cases hr : req.contains input = true
          · simp only [hr, if_true] at h
            rw [ih _ _ h k, TransferMap.find_assign]
            have hmem : input ∈ req := by simpa using hr
            have hexp : expectedTransferEntry graph req ipm input = some (tensor, false) := by
              simp [expectedTransferEntry, hg, hl, hmem]
              omega
            by_cases hk : k = input
            · subst hk
              simp [hexp]
            · simp [hk]
          · simp only [hr] at h
            rw [ih _ _ h k]
            have hmem : input ∉ req := by simpa using hr
            have hexp : expectedTransferEntry graph req ipm input = none := by
              simp [expectedTransferEntry, hg, hl, hmem]
              omega
            by_cases hk : k = input
            · subst hk
              simp [hexp]
            · simp [hk]
        · simp only [hu, if_false] at h
          rw [ih _ _ h k, TransferMap.find_assign]
          have hexp : expectedTransferEntry graph req ipm input = some (tensor, true) := by
            simp [expectedTransferEntry, hg, hl]
            omega
          by_cases hk : k = input
          · subst hk
            simp [hexp]
          · simp [hk]

/-- The input loop returns a map as soon as every initialized input has an entry in
`initializerPartitionMap` (the assertion holds). -/
theorem populateTransferable_isSome (graph : Graph) (req : List String)
    (ipm : List (TensorProto × List Nat))
    (hassert : ∀ name tensor, graph.GetInitializedTensor name = some tensor →
      (List.lookup tensor ipm).isSome = true) :
    ∀ (inputs : List String) (m0 : TransferMap),
      (populateTransferable graph req ipm inputs m0).isSome = true := by
  intro inputs
  induction inputs with
  | nil => intro m0; rfl
  | cons input rest ih =>
    intro m0
    unfold populateTransferable
    cases hg : graph.GetInitializedTensor input with
    | none => simpa using ih m0
    | some tensor =>
      have := hassert input tensor hg
      cases hl : List.lookup tensor ipm with
      | none => simp [hl] at this
      | some users =>
        simp only [hl]
        split
        · split
          · exact ih _
          · exact ih _
        · exact ih _

/-! ### The partition loop -/

/-- With `2^32` partitions or more the 32-bit index never reaches `partitions.size()`. -/
theorem partitionLoop_huge (env : Collaborators) (hn : 2 ^ 32 ≤ env.partitions.length) :
    ∀ (fuel idx : Nat) (st : LoopState), idx < 2 ^ 32 → partitionLoop env fuel idx st = none := by
  intro fuel
  induction fuel with
  | zero => intro idx st _; rfl
  | succ fuel ih =>
    intro idx st hidx
    have hlt : idx < env.partitions.length := by omega
    have hnext : (idx + 1) % 2 ^ 32 < 2 ^ 32 := Nat.mod_lt _ (by decide)
    unfold partitionLoop
    simp only [hlt, if_true]
    cases env.partitions[idx]? with
    | none => rfl
    | some partition =>
      simp only
      split
      · exact ih _ _ hnext
      · split
        · split
          · rfl
          · exact ih _ _ hnext
        · exact ih _ _ hnext

theorem partitionLoop_spec (env : Collaborators) (hn : env.partitions.length < 2 ^ 32) :
    ∀ (fuel idx : Nat) (st st' : LoopState), idx ≤ env.partitions.length →
      partitionLoop env fuel idx st = some st' →
      ∃ new : List FuseCall, st'.calls = st.calls ++ new ∧
        new.map (fun c => c.partitionIndex) =
          (List.range' idx (env.partitions.length - idx)).filter (fusedAt env.partitions) ∧
        new.map (fun c => c.partitionKernelPrefix) =
          (List.range new.length).map
            (fun j => to_string (st.provider.m_partitionKernelPrefixVal + j) ++ "_") ∧
        st'.provider.m_partitionKernelPrefixVal =
          st.provider.m_partitionKernelPrefixVal + new.length ∧
        ∀ c ∈ new, c.fromPartition env := by
  intro fuel
  induction fuel with
  | zero => intro idx st st' _ h; simp [partitionLoop] at h
  | succ fuel ih =>
    intro idx st st' hidx h
    unfold partitionLoop at h
    by_cases hlt : idx < env.partitions.length
    · simp only [hlt, if_true] at h
      have hnext : (idx + 1) % 2 ^ 32 = idx + 1 := Nat.mod_eq_of_lt (by omega)
      rw [hnext] at h
      have hget : env.partitions[idx]? = some env.partitions[idx] :=
        List.getElem?_eq_getElem hlt
      rw [hget] at h
      simp only at h
      have hrange : List.range' idx (env.partitions.length - idx) =
          idx :: List.range' (idx + 1) (env.partitions.length - (idx + 1)) := by
        have : env.partitions.length - idx = (env.partitions.length - (idx + 1)) + 1 := by omega
        rw [this, List.range'_succ]
      have hfused : fusedAt env.partitions idx = env.partitions[idx].isFused idx := by
        simp [fusedAt, hget]
      rw [hrange, List.filter_cons, hfused]
      split at h
      · rename_i hskip
        have hf : env.partitions[idx].isFused idx = false := by
          simp only [GraphPartition.isFused]
          simp only [Bool.or_eq_true, bne_iff_ne, ne_eq, Bool.not_eq_true'] at hskip
          rcases hskip with h1 | h1
          · simp [h1]
          · simp [h1]
        simp only [hf]
        exact ih _ _ _ (by omega) h
      · rename_i hskip
        simp only [Bool.or_eq_true, bne_iff_ne, ne_eq, Bool.not_eq_true', not_or, not_not,
          Bool.not_eq_false] at hskip
        split at h
        · rename_i hgraph
          have hf : env.partitions[idx].isFused idx = true := by
            simp [GraphPartition.isFused, hskip.1, hskip.2, hgraph]
          simp only [hf, if_true]
          split at h
          · exact absurd h (by simp)
          · rename_i m hm
            obtain ⟨new, h1, h2, h3, h4, h5⟩ := ih _ _ _ (by omega) h
            refine ⟨FuseCall.mk idx st.graph
              (to_string st.provider.GetPartitionKernelPrefixVal ++ "_") m :: new,
              ?_, ?_, ?_, ?_, ?_⟩
            · rw [h1]; simp
            · simp [h2]
            · simp only [List.map_cons, List.length_cons, List.range_succ_eq_map, h3,
                List.map_map]
              simp only [ExecutionProviderImpl.GetPartitionKernelPrefixVal,
                ExecutionProviderImpl.IncreasePartitionKernelPrefixVal, Nat.add_zero]
              refine congrArg _ (List.map_congr_left ?_)
              intro j _
              simp only [Function.comp]
              congr 2
              omega
            · rw [h4]
              simp only [ExecutionProviderImpl.IncreasePartitionKernelPrefixVal,
                List.length_cons]
              omega
            · intro c hc
              rcases List.mem_cons.1 hc with rfl | hc
              · exact ⟨_, hget, hm⟩
              · exact h5 c hc
        · rename_i hgraph
          have hf : env.partitions[idx].isFused idx = false := by
            simp [GraphPartition.isFused, hgraph]
          simp only [hf]
          exact ih _ _ _ (by omega) h
    · simp only [hlt, if_false, Option.some.injEq] at h
      subst h
      have : env.partitions.length - idx = 0 := by omega
      exact ⟨[], by simp, by simp [this], by simp, by simp, by simp⟩

/-- The loop returns when the index cannot wrap, the fuel covers the remaining partitions
and the assertion holds on every graph the loop sees. -/
theorem partitionLoop_isSome (env : Collaborators) (hn : env.partitions.length < 2 ^ 32)
    (hfuse : ∀ call graph, assertHolds env graph →
      assertHolds env (env.FusePartitionAndRegisterKernel call graph)) :
    ∀ (fuel idx : Nat) (st : LoopState), idx ≤ env.partitions.length →
      env.partitions.length - idx < fuel → assertHolds env st.graph →
      (partitionLoop env fuel idx st).isSome = true := by
  intro fuel
  induction fuel with
  | zero => intro idx st _ h; omega
  | succ fuel ih =>
    intro idx st hidx hfuel hinv
    unfold partitionLoop
    by_cases hlt : idx < env.partitions.length
    · simp only [hlt, if_true]
      have hnext : (idx + 1) % 2 ^ 32 = idx + 1 := Nat.mod_eq_of_lt (by omega)
      rw [hnext, List.getElem?_eq_getElem hlt]
      simp only
      split
      · exact ih _ _ (by omega) (by omega) hinv
      · split
        · have hp := populateTransferable_isSome st.graph env.requiredInitializerMap
            env.initializerPartitionMap hinv env.partitions[idx].GetInputs []
          split
          · rename_i hnone
            rw [hnone] at hp
            exact absurd hp (by simp)
          · exact ih _ _ (by omega) (by omega) (hfuse _ _ hinv)
        · exact ih _ _ (by omega) (by omega) hinv
    · simp [hlt]

/-- A returned result comes from a returned loop. -/
theorem ApplyImpl_eq_some (env : Collaborators) (p : ExecutionProviderImpl) (graph : Graph)
    (modified : Bool) (graph_level : Int) (r : ApplyResult)
    (h : ApplyImpl env p graph modified graph_level = some r) :
    ∃ st, partitionLoop env (env.partitions.length + 1) 0
        { graph := graph, provider := p, calls := [] } = some st ∧
      r = { status := Status.OK, graph := st.graph, modified := modified,
            provider := st.provider, calls := st.calls } := by
  unfold ApplyImpl at h
  simp only at h
  split at h
  · exact absurd h (by simp)
  · rename_i st hst
    exact ⟨st, hst, by simpa using h.symm⟩

/-- A returned result means fewer than `2^32` partitions. -/
theorem ApplyImpl_some_small (env : Collaborators) (p : ExecutionProviderImpl) (graph : Graph)
    (modified : Bool) (graph_level : Int) (r : ApplyResult)
    (h : ApplyImpl env p graph modified graph_level = some r) :
    env.partitions.length < 2 ^ 32 := by
  obtain ⟨st, hst, _⟩ := ApplyImpl_eq_some env p graph modified graph_level r h
  by_contra hc
  rw [partitionLoop_huge env (by omega) _ 0 _ (by decide)] at hst
  exact absurd hst (by simp)

/-- The summary of a returned call used by the claims below. -/
theorem ApplyImpl_spec (env : Collaborators) (p : ExecutionProviderImpl) (graph : Graph)
    (modified : Bool) (graph_level : Int) (r : ApplyResult)
    (h : ApplyImpl env p graph modified graph_level = some r) :
    r.status = Status.OK ∧ r.modified = modified ∧
      r.calls.map (fun c => c.partitionIndex) = fusedIndices env.partitions ∧
      r.calls.map (fun c => c.partitionKernelPrefix) =
        (List.range r.calls.length).map
          (fun k => to_string (p.m_partitionKernelPrefixVal + k) ++ "_") ∧
      r.provider.m_partitionKernelPrefixVal = p.m_partitionKernelPrefixVal + r.calls.length ∧
      ∀ c ∈ r.calls, c.fromPartition env := by
  have hn := ApplyImpl_some_small env p graph modified graph_level r h
  obtain ⟨st, hst, hr⟩ := ApplyImpl_eq_some env p graph modified graph_level r h
  obtain ⟨new, h1, h2, h3, h4, h5⟩ := partitionLoop_spec env hn _ 0 _ st (by omega) hst
  simp only [List.nil_append] at h1
  subst hr
  rw [h1]
  refine ⟨rfl, rfl, ?_, h3, h4, h5⟩
  rw [h2, fusedIndices, List.range_eq_range']
  simp

/-- A call of `ApplyImpl` returns on fewer than `2^32` partitions when the assertion of line
84 holds on the graph and the fusion helper keeps it. -/
theorem ApplyImpl_returns (env : Collaborators) (p : ExecutionProviderImpl) (graph : Graph)
    (modified : Bool) (graph_level : Int) (hn : env.partitions.length < 2 ^ 32)
    (h0 : assertHolds env graph)
    (hfuse : ∀ call g, assertHolds env g →
      assertHolds env (env.FusePartitionAndRegisterKernel call g)) :
    ∃ r, ApplyImpl env p graph modified graph_level = some r := by
  have := partitionLoop_isSome env hn hfuse (env.partitions.length + 1) 0
    { graph := graph, provider := p, calls := [] } (by omega) (by omega) h0
  obtain ⟨st, hst⟩ := Option.isSome_iff_exists.1 this
  exact ⟨{ status := Status.OK, graph := st.graph, modified := modified,
           provider := st.provider, calls := st.calls }, by simp only [ApplyImpl, hst]⟩

/-- The assertion of line 84 holds on the demo graph, and fusing keeps it. -/
theorem demoEnv_assertHolds :
    assertHolds demoEnv demoGraph ∧
      ∀ call g, assertHolds demoEnv g →
        assertHolds demoEnv (demoEnv.FusePartitionAndRegisterKernel call g) := by
  refine ⟨?_, fun call g h name tensor hn => h name tensor hn⟩
  intro name tensor h
  simp only [Graph.GetInitializedTensor, demoGraph, List.lookup_cons] at h
  simp only [demoEnv]
  split at h
  · cases h; decide
  · split at h
    · cases h; decide
    · split at h
      · cases h; decide
      · simp at h

/-- The entries of the map of a recorded call, in the words of the claim. -/
theorem fromPartition_entries (env : Collaborators) (c : FuseCall) (partition : GraphPartition)
    (hm : populateTransferable c.graph env.requiredInitializerMap env.initializerPartitionMap
      partition.GetInputs [] = some c.isInitializerTransferable) :
    (∀ input ∈ partition.GetInputs,
      ((c.isInitializerTransferable.find input).isSome = true ↔
        ∃ tensor users, c.graph.GetInitializedTensor input = some tensor ∧
          List.lookup tensor env.initializerPartitionMap = some users ∧
          (users.length ≤ 1 ∨ input ∈ env.requiredInitializerMap)) ∧
      (∀ tensor flag, c.isInitializerTransferable.find input = some (tensor, flag) →
        c.graph.GetInitializedTensor input = some tensor ∧
        ∃ users, List.lookup tensor env.initializerPartitionMap = some users ∧
          (flag = true ↔ users.length ≤ 1) ∧ (flag = false ↔ 1 < users.length))) ∧
    (∀ k, k ∉ partition.GetInputs → c.isInitializerTransferable.find k = none) ∧
    (∀ k tensor users, c.isInitializerTransferable.find k = some (tensor, true) →
      List.lookup tensor env.initializerPartitionMap = some users → users.length ≤ 1) := by
  have hfind := populateTransferable_find c.graph env.requiredInitializerMap
    env.initializerPartitionMap partition.GetInputs [] _ hm
  have hempty : ∀ k, TransferMap.find [] k = none := fun k => rfl
  have hin : ∀ input ∈ partition.GetInputs, c.isInitializerTransferable.find input =
      expectedTransferEntry c.graph env.requiredInitializerMap env.initializerPartitionMap
        input := by
    intro input hi
    rw [hfind input, hempty]
    by_cases hs : (expectedTransferEntry c.graph env.requiredInitializerMap
        env.initializerPartitionMap input).isSome = true
    · simp [hi, hs]
    · simp only [hi, hs, and_false, if_false]
      have : expectedTransferEntry c.graph env.requiredInitializerMap
          env.initializerPartitionMap input = none := by simpa using hs
      exact this.symm
  have hout : ∀ k, k ∉ partition.GetInputs → c.isInitializerTransferable.find k = none := by
    intro k hk
    rw [hfind k, hempty]
    simp [hk]
  have hflag : ∀ input tensor flag,
      expectedTransferEntry c.graph env.requiredInitializerMap env.initializerPartitionMap
        input = some (tensor, flag) →
      c.graph.GetInitializedTensor input = some tensor ∧
        ∃ users, List.lookup tensor env.initializerPartitionMap = some users ∧
          (flag = true ↔ users.length ≤ 1) ∧ (flag = false ↔ 1 < users.length) := by
    intro input tensor flag he
    unfold expectedTransferEntry at he
    cases hg : c.graph.GetInitializedTensor input with
    | none => simp [hg] at he
    | some t =>
      simp only [hg] at he
      cases hl : List.lookup t env.initializerPartitionMap with
      | none => simp [hl] at he
      | some users =>
        simp only [hl] at he
        by_cases hu : users.length ≤ 1
        · simp only [hu, if_true, Option.some.injEq, Prod.mk.injEq] at he
          obtain ⟨rfl, rfl⟩ := he
          exact ⟨rfl, users, hl, by simp [hu], by simp; omega⟩
        · simp only [hu, if_false] at he
          split at he
          · simp only [Option.some.injEq, Prod.mk.injEq] at he
            obtain ⟨rfl, rfl⟩ := he
            exact ⟨rfl, users, hl, by simp [hu], by simp; omega⟩
          · simp at he
  refine ⟨?_, hout, ?_⟩
  · intro input hi
    rw [hin input hi]
    refine ⟨?_, fun tensor flag he => hflag input tensor flag he⟩
    constructor
    · intro hs
      obtain ⟨⟨tensor, flag⟩, he⟩ := Option.isSome_iff_exists.1 hs
      obtain ⟨hg, users, hl, hf1, hf2⟩ := hflag input tensor flag he
      refine ⟨tensor, users, hg, hl, ?_⟩
      by_cases hu : users.length ≤ 1
      · exact Or.inl hu
      · right
        unfold expectedTransferEntry at he
        simp only [hg, hl, hu, if_false] at he
        by_contra hmem
        simp [hmem] at he
    · rintro ⟨tensor, users, hg, hl, hor⟩
      unfold expectedTransferEntry
      simp only [hg, hl]
      by_cases hu : users.length ≤ 1
      · simp [hu]
      · rcases hor with h1 | h1
        · exact absurd h1 hu
        · simp [hu, h1]
  · intro k tensor users hk hl
    by_cases hmem : k ∈ partition.GetInputs
    · rw [hin k hmem] at hk
      obtain ⟨_, users2, hl2, hf1, _⟩ := hflag k tensor true hk
      rw [hl] at hl2
      cases hl2
      exact hf1.1 rfl
    · rw [hout k hmem] at hk
      exact absurd hk (by simp)

/-- C8: for every call of `FusePartitionAndRegisterKernel` that `ApplyImpl` makes and every
input name of the fused partition, the map `isInitializerTransferable` the call receives has
an entry for the name iff the name is an initialized tensor of the graph and the tensor is
used by at most one partition or the name is in `requiredInitializerMap`; the flag of an entry
is true iff the tensor's `initializerPartitionMap` entry has size at most one and false iff
the size is larger. The map has no other entries, and no tensor shared by two or more
partitions is marked transferable. -/
theorem ApplyImpl_isInitializerTransferable (env : Collaborators) (p : ExecutionProviderImpl)
    (graph : Graph) (modified : Bool) (graph_level : Int) (r : ApplyResult)
    (h : ApplyImpl env p graph modified graph_level = some r)
    (c : FuseCall) (hc : c ∈ r.calls) :
    ∃ partition, env.partitions[c.partitionIndex]? = some partition ∧
      partition.isFused c.partitionIndex = true ∧
      (∀ input ∈ partition.GetInputs,
        ((c.isInitializerTransferable.find input).isSome = true ↔
          ∃ tensor users, c.graph.GetInitializedTensor input = some tensor ∧
            List.lookup tensor env.initializerPartitionMap = some users ∧
            (users.length ≤ 1 ∨ input ∈ env.requiredInitializerMap)) ∧
        (∀ tensor flag, c.isInitializerTransferable.find input = some (tensor, flag) →
          c.graph.GetInitializedTensor input = some tensor ∧
          ∃ users, List.lookup tensor env.initializerPartitionMap = some users ∧
            (flag = true ↔ users.length ≤ 1) ∧ (flag = false ↔ 1 < users.length))) ∧
      (∀ k, k ∉ partition.GetInputs → c.isInitializerTransferable.find k = none) ∧
      (∀ k tensor users, c.isInitializerTransferable.find k = some (tensor, true) →
        List.lookup tensor env.initializerPartitionMap = some users → users.length ≤ 1) := by
  obtain ⟨_, _, hidx, _, _, hfrom⟩ := ApplyImpl_spec env p graph modified graph_level r h
  obtain ⟨partition, hget, hm⟩ := hfrom c hc
  have hmem : c.partitionIndex ∈ fusedIndices env.partitions := by
    rw [← hidx]
    exact List.mem_map_of_mem _ hc
  have hf : partition.isFused c.partitionIndex = true := by
    have := (List.mem_filter.1 hmem).2
    simpa [fusedAt, hget] using this
  exact ⟨partition, hget, hf, fromPartition_entries env c partition hm⟩

/-- Witness for `ApplyImpl_isInitializerTransferable`: the first call of the demo session. -/
theorem ApplyImpl_isInitializerTransferable_witness :
    ApplyImpl demoEnv ⟨7⟩ demoGraph false 0 = some demoResult ∧ demoCall ∈ demoResult.calls ∧
    ∃ partition, demoEnv.partitions[demoCall.partitionIndex]? = some partition ∧
      partition.isFused demoCall.partitionIndex = true ∧
      (∀ input ∈ partition.GetInputs,
        ((demoCall.isInitializerTransferable.find input).isSome = true ↔
          ∃ tensor users, demoCall.graph.GetInitializedTensor input = some tensor ∧
            List.lookup tensor demoEnv.initializerPartitionMap = some users ∧
            (users.length ≤ 1 ∨ input ∈ demoEnv.requiredInitializerMap)) ∧
        (∀ tensor flag, demoCall.isInitializerTransferable.find input = some (tensor, flag) →
          demoCall.graph.GetInitializedTensor input = some tensor ∧
          ∃ users, List.lookup tensor demoEnv.initializerPartitionMap = some users ∧
            (flag = true ↔ users.length ≤ 1) ∧ (flag = false ↔ 1 < users.length))) ∧
      (∀ k, k ∉ partition.GetInputs → demoCall.isInitializerTransferable.find k = none) ∧
      (∀ k tensor users, demoCall.isInitializerTransferable.find k = some (tensor, true) →
        List.lookup tensor demoEnv.initializerPartitionMap = some users → users.length ≤ 1) :=
  ⟨by decide, by decide,
    ApplyImpl_isInitializerTransferable demoEnv ⟨7⟩ demoGraph false 0 demoResult (by decide)
      demoCall (by decide)⟩

/-- The prefixes handed out from a counter value on are pairwise distinct. -/
theorem kernelPrefixes_nodup (c n : Nat) :
    ((List.range n).map (fun k => to_string (c + k) ++ "_")).Nodup := by
  have : (List.range n).map (fun k => to_string (c + k) ++ "_") =
      (List.range' c n).map (fun k => to_string k ++ "_") := by
    rw [List.range'_eq_map_range, List.map_map]
    rfl
  rw [this]
  exact (List.nodup_range' c n).map kernelPrefix_injective

/-- C9: `ApplyImpl` returns on fewer than `2^32` partitions when the assertion of line 84
holds throughout, and whenever it returns, `FusePartitionAndRegisterKernel` has been called
exactly once for each partition that is its own root merged partition, a DML partition and a
DML graph partition, for no other partition, in increasing `partitionIndex` order and with
the partition's own index; the `k`-th call (from 0) has the prefix `to_string (c + k) ++ "_"`
for the counter `c` at entry; the prefixes are pairwise distinct within the call and across a
following call; the counter has advanced by exactly the number of fused partitions. -/
theorem ApplyImpl_fuses_selected_partitions (env : Collaborators) (p : ExecutionProviderImpl)
    (graph : Graph) (modified : Bool) (graph_level : Int) :
    (env.partitions.length < 2 ^ 32 → assertHolds env graph →
      (∀ call g, assertHolds env g →
        assertHolds env (env.FusePartitionAndRegisterKernel call g)) →
      ∃ r, ApplyImpl env p graph modified graph_level = some r) ∧
    ∀ r, ApplyImpl env p graph modified graph_level = some r →
      r.calls.map (fun c => c.partitionIndex) = fusedIndices env.partitions ∧
      (r.calls.map (fun c => c.partitionIndex)).Sorted (· < ·) ∧
      (∀ i, i ∈ r.calls.map (fun c => c.partitionIndex) ↔
        ∃ partition, env.partitions[i]? = some partition ∧
          partition.GetRootMergedPartition = i ∧ partition.IsDmlPartition = true ∧
          partition.IsDmlGraphPartition = true) ∧
      (∀ k c, r.calls[k]? = some c →
        c.partitionKernelPrefix = to_string (p.m_partitionKernelPrefixVal + k) ++ "_") ∧
      (r.calls.map (fun c => c.partitionKernelPrefix)).Nodup ∧
      r.calls.length = (fusedIndices env.partitions).length ∧
      r.provider.m_partitionKernelPrefixVal =
        p.m_partitionKernelPrefixVal + (fusedIndices env.partitions).length ∧
      ∀ env2 graph2 modified2 graph_level2 r2,
        ApplyImpl env2 r.provider graph2 modified2 graph_level2 = some r2 →
        ((r.calls ++ r2.calls).map (fun c => c.partitionKernelPrefix)).Nodup := by
  refine ⟨fun hn h0 hfuse => ApplyImpl_returns env p graph modified graph_level hn h0 hfuse, ?_⟩
  intro r h
  obtain ⟨_, _, hidx, hpre, hcnt, _⟩ := ApplyImpl_spec env p graph modified graph_level r h
  have hlen : r.calls.length = (fusedIndices env.partitions).length := by
    rw [← hidx, List.length_map]
  refine ⟨hidx, ?_, ?_, ?_, ?_, hlen, ?_, ?_⟩
  · rw [hidx]
    exact (List.pairwise_lt_range _).filter _
  · intro i
    rw [hidx, fusedIndices, List.mem_filter, List.mem_range]
    constructor
    · rintro ⟨hi, hf⟩
      refine ⟨env.partitions[i], List.getElem?_eq_getElem hi, ?_⟩
      simp only [fusedAt, List.getElem?_eq_getElem hi, GraphPartition.isFused,
        Bool.and_eq_true, beq_iff_eq] at hf
      exact ⟨hf.1.1, hf.1.2, hf.2⟩
    · rintro ⟨partition, hget, h1, h2, h3⟩
      have hi : i < env.partitions.length := by
        by_contra hc
        rw [List.getElem?_eq_none (by omega)] at hget
        exact absurd hget (by simp)
      refine ⟨hi, ?_⟩
      simp [fusedAt, hget, GraphPartition.isFused, h1, h2, h3]
  · intro k c hk
    have hk2 : k < r.calls.length := by
      by_contra hc
      rw [List.getElem?_eq_none (by omega)] at hk
      exact absurd hk (by simp)
    have := congrArg (fun l => l[k]?) hpre
    simp only [List.getElem?_map, hk, Option.map_some', List.getElem?_range hk2] at this
    simpa using this
  · rw [hpre]
    exact kernelPrefixes_nodup _ _
  · rw [hcnt, hlen]
  · intro env2 graph2 modified2 graph_level2 r2 h2
    obtain ⟨_, _, _, hpre2, _, _⟩ :=
      ApplyImpl_spec env2 r.provider graph2 modified2 graph_level2 r2 h2
    rw [List.map_append, hpre, hpre2, hcnt]
    have := kernelPrefixes_nodup p.m_partitionKernelPrefixVal
      (r.calls.length + r2.calls.length)
    have hsplit : List.range (r.calls.length + r2.calls.length) =
        List.range r.calls.length ++
          (List.range r2.calls.length).map (fun k => r.calls.length + k) := by
      rw [← List.range'_eq_map_range, List.range_eq_range', List.range_eq_range']
      have key := List.range'_append_1 0 r.calls.length r2.calls.length
      rw [Nat.zero_add, Nat.add_comm r2.calls.length] at key
      exact key.symm
    rw [hsplit, List.map_append, List.map_map] at this
    simpa [Function.comp, Nat.add_assoc] using this

/-- Witness for `ApplyImpl_fuses_selected_partitions`: the demo session returns, fuses the
partitions 0 and 3 and hands out the prefixes `7_` and `8_`. -/
theorem ApplyImpl_fuses_selected_partitions_witness :
    (∃ r, ApplyImpl demoEnv ⟨7⟩ demoGraph false 0 = some r) ∧
      ApplyImpl demoEnv ⟨7⟩ demoGraph false 0 = some demoResult ∧
      demoResult.calls.map (fun c => c.partitionIndex) = [0, 3] ∧
      demoResult.calls.map (fun c => c.partitionKernelPrefix) = ["7_", "8_"] ∧
      demoResult.calls.map (fun c => c.partitionIndex) = fusedIndices demoEnv.partitions ∧
      demoResult.provider.m_partitionKernelPrefixVal =
        7 + (fusedIndices demoEnv.partitions).length :=
  have h := (ApplyImpl_fuses_selected_partitions demoEnv ⟨7⟩ demoGraph false 0).2 demoResult
    (by decide)
  ⟨(ApplyImpl_fuses_selected_partitions demoEnv ⟨7⟩ demoGraph false 0).1 (by decide)
      demoEnv_assertHolds.1 demoEnv_assertHolds.2,
    by decide, by decide, by decide, h.1, h.2.2.2.2.2.2.1⟩

/-- C10: `ApplyImpl` has no assignment to its `modified` out-parameter and its only return
statement is `Status::OK()`: whenever it returns, the status is OK and `modified` has the
value it had before the call, also when partitions were fused into the graph; and it does
return on fewer than `2^32` partitions when the assertion of line 84 holds throughout. -/
theorem ApplyImpl_modified_unchanged (env : Collaborators) (p : ExecutionProviderImpl)
    (graph : Graph) (modified : Bool) (graph_level : Int) :
    (∀ r, ApplyImpl env p graph modified graph_level = some r →
      r.status = Status.OK ∧ r.modified = modified) ∧
    (env.partitions.length < 2 ^ 32 → assertHolds env graph →
      (∀ call g, assertHolds env g →
        assertHolds env (env.FusePartitionAndRegisterKernel call g)) →
      ∃ r, ApplyImpl env p graph modified graph_level = some r ∧
        r.status = Status.OK ∧ r.modified = modified) := by
  refine ⟨fun r h => ?_, fun hn h0 hfuse => ?_⟩
  · obtain ⟨h1, h2, _⟩ := ApplyImpl_spec env p graph modified graph_level r h
    exact ⟨h1, h2⟩
  · obtain ⟨r, hr⟩ := ApplyImpl_returns env p graph modified graph_level hn h0 hfuse
    obtain ⟨h1, h2, _⟩ := ApplyImpl_spec env p graph modified graph_level r hr
    exact ⟨r, hr, h1, h2⟩

/-- Witness for `ApplyImpl_modified_unchanged`: in the demo session two partitions are fused,
the graph changes, and `modified` is still false. -/
theorem ApplyImpl_modified_unchanged_witness :
    ApplyImpl demoEnv ⟨7⟩ demoGraph false 0 = some demoResult ∧
      demoResult.graph ≠ demoGraph ∧ demoResult.calls.length = 2 ∧
      (demoResult.status = Status.OK ∧ demoResult.modified = false) ∧
      ∃ r, ApplyImpl demoEnv ⟨7⟩ demoGraph false 0 = some r ∧
        r.status = Status.OK ∧ r.modified = false :=
  ⟨by decide, by decide, by decide,
    (ApplyImpl_modified_unchanged demoEnv ⟨7⟩ demoGraph false 0).1 demoResult (by decide),
    (ApplyImpl_modified_unchanged demoEnv ⟨7⟩ demoGraph false 0).2 (by decide)
      demoEnv_assertHolds.1 demoEnv_assertHolds.2⟩

end Dml

namespace onnxruntime.contrib.transformers

/-! ### Validation -/

/-- What an accepted parameter set satisfies, and what the configuration built from it is. -/
theorem Validate_ok (p : BeamSearchParameters) (cfg : SearchConfiguration)
    (h : p.Validate = .ok cfg) :
    (1 ≤ p.num_return_sequences ∧ p.num_return_sequences ≤ p.num_beams ∧
      p.min_length ≤ p.max_length) ∧
    (1 ≤ cfg.num_return_sequences ∧ cfg.num_return_sequences ≤ cfg.num_beams ∧
      cfg.min_length ≤ cfg.max_length) ∧
    cfg.vocab_size = p.vocab_size ∧ cfg.min_length = p.min_length ∧
    cfg.max_length = p.max_length ∧ cfg.eos_token_id = p.eos_token_id := by
  unfold BeamSearchParameters.Validate at h
  split at h
  · exact absurd h (by simp)
  · split at h
    · exact absurd h (by simp)
    · split at h
      · exact absurd h (by simp)
      · split at h
        · exact absurd h (by simp)
        · simp only [Except.ok.injEq] at h
          subst h
          exact ⟨⟨by omega, by omega, by omega⟩, ⟨by simp only; omega, by simp only; omega,
            by simp only; omega⟩, rfl, rfl, rfl, rfl⟩

theorem Validate_error (p : BeamSearchParameters)
    (h : p.num_beams < 1 ∨ p.num_return_sequences > p.num_beams ∨ p.min_length > p.max_length) :
    p.Validate = .error .ConfigurationError := by
  unfold BeamSearchParameters.Validate
  split
  · rfl
  · split
    · rfl
    · split
      · rfl
      · split
        · rfl
        · omega

/-- C1: for every parameter set with `num_beams < 1`, or `num_return_sequences > num_beams`,
or `min_length > max_length`, `Compute` fails with a configuration error and the subgraph is
never run, whatever the model and prompts; conversely every accepted parameter set satisfies
`1 ≤ num_return_sequences ≤ num_beams` and `min_length ≤ max_length`, and so does the
configuration built from it. -/
theorem Compute_rejects_invalid_configuration (self : BeamSearch) (num : Numerics)
    (model : SubgraphAdapter) (prompts : List (List Nat)) :
    ((self.parameters_.num_beams < 1 ∨
        self.parameters_.num_return_sequences > self.parameters_.num_beams ∨
        self.parameters_.min_length > self.parameters_.max_length) →
      self.parameters_.Validate = .error .ConfigurationError ∧
      (self.Compute num model prompts).runs = 0 ∧
      (self.Compute num model prompts).outcome = .error .ConfigurationError) ∧
    (∀ cfg, self.parameters_.Validate = .ok cfg →
      (1 ≤ self.parameters_.num_return_sequences ∧
        self.parameters_.num_return_sequences ≤ self.parameters_.num_beams ∧
        self.parameters_.min_length ≤ self.parameters_.max_length) ∧
      (1 ≤ cfg.num_return_sequences ∧ cfg.num_return_sequences ≤ cfg.num_beams ∧
        cfg.min_length ≤ cfg.max_length)) := by
  refine ⟨fun h => ?_, fun cfg h => ?_⟩
  · have hv := Validate_error self.parameters_ h
    refine ⟨hv, ?_, ?_⟩ <;> simp only [BeamSearch.Compute, hv]
  · have := Validate_ok self.parameters_ cfg h
    exact ⟨this.1, this.2.1⟩

/-- Witness for `Compute_rejects_invalid_configuration`: zero beams. -/
theorem Compute_rejects_invalid_configuration_witness :
    ((BeamSearch.construct { demoParameters with num_beams := 0 }).Compute demoNumerics
        demoModel [[9]]).runs = 0 ∧
      ((BeamSearch.construct { demoParameters with num_beams := 0 }).Compute demoNumerics
        demoModel [[9]]).outcome = .error .ConfigurationError ∧
      demoParameters.Validate = .ok demoConfig ∧
      (1 ≤ demoConfig.num_return_sequences ∧
        demoConfig.num_return_sequences ≤ demoConfig.num_beams ∧
        demoConfig.min_length ≤ demoConfig.max_length) :=
  have h1 := (Compute_rejects_invalid_configuration
    (BeamSearch.construct { demoParameters with num_beams := 0 }) demoNumerics demoModel
    [[9]]).1 (Or.inl (by decide))
  have h2 := (Compute_rejects_invalid_configuration
    (BeamSearch.construct demoParameters) demoNumerics demoModel [[9]]).2 demoConfig rfl
  ⟨h1.2.1, h1.2.2, rfl, h2.2⟩

/-! ### The order of scores -/

theorem LogProb.le_refl (a : LogProb) : a.le a = true := by
  cases a <;> simp [LogProb.le]

theorem LogProb.le_total (a b : LogProb) : a.le b = true ∨ b.le a = true := by
  cases a <;> cases b <;> simp [LogProb.le]
  exact Int.le_total _ _

theorem LogProb.le_trans (a b c : LogProb) (h1 : a.le b = true) (h2 : b.le c = true) :
    a.le c = true := by
  cases a <;> cases b <;> cases c <;> simp [LogProb.le] at *
  exact Int.le_trans h1 h2

theorem LogProb.le_negInf (a : LogProb) (h : a.le .negInf = true) : a = .negInf := by
  cases a <;> simp [LogProb.le] at *

/-! ### The candidates of a batch item -/

theorem mem_proposeAll (cfg : SearchConfiguration) (num : Numerics) (step : Nat)
    (log_probs : Nat → Nat → Int) (c : Candidate) :
    ∀ (group : BeamGroup) (parent : Nat),
      c ∈ proposeAll cfg num step log_probs parent group ↔
        ∃ j h, group[j]? = some h ∧
          c ∈ propose cfg num step (log_probs (parent + j)) (parent + j) h := by
  intro group
  induction group with
  | nil => intro parent; simp [proposeAll]
  | cons h0 rest ih =>
    intro parent
    simp only [proposeAll, List.mem_append, ih]
    constructor
    · rintro (h | ⟨j, h, hj, hc⟩)
      · exact ⟨0, h0, by simp, by simpa using h⟩
      · exact ⟨j + 1, h, by simpa using hj, by
          have : parent + 1 + j = parent + (j + 1) := by omega
          rwa [this] at hc⟩
    · rintro ⟨j, h, hj, hc⟩
      cases j with
      | zero =>
        simp only [List.getElem?_cons_zero, Option.some.injEq] at hj
        subst hj
        exact Or.inl (by simpa using hc)
      | succ j =>
        refine Or.inr ⟨j, h, by simpa using hj, ?_⟩
        have : parent + 1 + j = parent + (j + 1) := by omega
        rwa [this]

theorem mem_propose (cfg : SearchConfiguration) (num : Numerics) (step : Nat)
    (log_probs : Nat → Int) (parent : Nat) (h : Hypothesis) (c : Candidate) :
    c ∈ propose cfg num step log_probs parent h ↔
      (h.finished = true ∧ c = { parent := parent, token := none, result := h }) ∨
      (h.finished = false ∧ ∃ token, token < cfg.vocab_size ∧
        c = { parent := parent, token := some token,
              result := h.extend cfg step token (LogitsProcessor cfg num h log_probs token) }) := by
  unfold propose
  cases hf : h.finished with
  | true => simp
  | false =>
    simp only [Bool.false_eq_true, if_false, List.mem_map, List.mem_range, false_and, false_or,
      true_and]
    constructor
    · rintro ⟨t, ht, rfl⟩; exact ⟨t, ht, rfl⟩
    · rintro ⟨t, ht, rfl⟩; exact ⟨t, ht, rfl⟩

theorem extend_tokens (cfg : SearchConfiguration) (step : Nat) (h : Hypothesis) (token : Nat)
    (lp : LogProb) : (h.extend cfg step token lp).tokens = h.tokens ++ [token] := rfl

theorem LogProb.add_isFinite (a b : LogProb) :
    (a.add b).isFinite = true ↔ a.isFinite = true ∧ b.isFinite = true := by
  cases a <;> cases b <;> simp [LogProb.add, LogProb.isFinite]

/-- A candidate stems from a hypothesis of the group. -/
theorem mem_proposeAll_parent (cfg : SearchConfiguration) (num : Numerics) (step : Nat)
    (log_probs : Nat → Nat → Int) (group : BeamGroup) (c : Candidate)
    (hc : c ∈ proposeAll cfg num step log_probs 0 group) :
    ∃ j h, group[j]? = some h ∧ h ∈ group ∧
      ((h.finished = true ∧ c = { parent := j, token := none, result := h }) ∨
       (h.finished = false ∧ ∃ token, token < cfg.vocab_size ∧
          c = { parent := j, token := some token,
                result := h.extend cfg step token
                  (LogitsProcessor cfg num h (log_probs j) token) })) := by
  obtain ⟨j, h, hj, hp⟩ := (mem_proposeAll cfg num step log_probs c group 0).1 hc
  rw [Nat.zero_add] at hp
  exact ⟨j, h, hj, List.getElem?_mem hj, (mem_propose _ _ _ _ _ _ _).1 hp⟩

/-! ### The size of a beam group -/

/-- What the selector returns: exactly `num_beams` hypotheses, each the result of a candidate
of the group with a finite score. -/
theorem CandidateSelector_some (cfg : SearchConfiguration) (num : Numerics) (step : Nat)
    (log_probs : Nat → Nat → Int) (group group' : BeamGroup)
    (h : CandidateSelector cfg num step log_probs group = some group') :
    group'.length = cfg.num_beams ∧
      ∀ h' ∈ group', h'.score.isFinite = true ∧
        ∃ c ∈ proposeAll cfg num step log_probs 0 group, c.result = h' := by
  unfold CandidateSelector at h
  simp only at h
  split at h
  · exact absurd h (by simp)
  · rename_i hlen
    simp only [Option.some.injEq] at h
    subst h
    refine ⟨by simp only [List.length_map, List.length_take]; omega, ?_⟩
    intro h' hmem
    simp only [List.mem_map] at hmem
    obtain ⟨c, hc, rfl⟩ := hmem
    have hc2 := List.mem_of_mem_take (List.mem_of_mem_take hc)
    obtain ⟨hc3, hfin⟩ := List.mem_filter.1 hc2
    exact ⟨hfin, c, (List.perm_insertionSort _ _).subset hc3, rfl⟩

theorem stepGroup_length (cfg : SearchConfiguration) (num : Numerics) (step : Nat)
    (log_probs : Nat → Nat → Int) (group group' : BeamGroup)
    (hg : group.length = cfg.num_beams)
    (h : stepGroup cfg num step log_probs group = some group') :
    group'.length = cfg.num_beams := by
  unfold stepGroup at h
  split at h
  · simp only [Option.some.injEq] at h
    subst h
    exact hg
  · exact (CandidateSelector_some cfg num step log_probs group group' h).1

/-- A selection round over the batch keeps the number of batch items and selects per batch
item. -/
theorem stepGroups_some (cfg : SearchConfiguration) (num : Numerics) (step : Nat)
    (log_probs : Nat → Nat → Nat → Int) :
    ∀ (groups groups' : List BeamGroup) (batch : Nat),
      stepGroups cfg num step log_probs batch groups = some groups' →
      groups'.length = groups.length ∧
      ∀ (b : Nat) (g' : BeamGroup), groups'[b]? = some g' →
        ∃ g, groups[b]? = some g ∧
          stepGroup cfg num step (log_probs (batch + b)) g = some g' := by
  intro groups
  induction groups with
  | nil =>
    intro groups' batch h
    simp only [stepGroups, Option.some.injEq] at h
    subst h
    exact ⟨rfl, fun b g' hb => by simp at hb⟩
  | cons g rest ih =>
    intro groups' batch h
    unfold stepGroups at h
    cases h1 : stepGroup cfg num step (log_probs batch) g with
    | none => simp [h1] at h
    | some g1 =>
      cases h2 : stepGroups cfg num step log_probs (batch + 1) rest with
      | none => simp [h1, h2] at h
      | some rest' =>
        simp only [h1, h2, Option.some.injEq] at h
        subst h
        obtain ⟨hl, hget⟩ := ih rest' (batch + 1) h2
        refine ⟨by simp [hl], ?_⟩
        intro b g' hb
        cases b with
        | zero =>
          simp only [List.getElem?_cons_zero, Option.some.injEq] at hb
          subst hb
          exact ⟨g, by simp, by simpa using h1⟩
        | succ b =>
          simp only [List.getElem?_cons_succ] at hb
          obtain ⟨g0, hg0, hs⟩ := hget b g' hb
          refine ⟨g0, by simpa using hg0, ?_⟩
          have : batch + 1 + b = batch + (b + 1) := by omega
          rwa [this] at hs

/-- What a successful step is made of. -/
theorem Step_some (cfg : SearchConfiguration) (num : Numerics) (model : SubgraphAdapter)
    (s s' : GenerationState) (h : Orchestrator.Step cfg num model s = some s') :
    ∃ log_probs,
      model.Run s.step (s.groups.map fun g => g.map fun h => h.tokens) = some log_probs ∧
      stepGroups cfg num s.step log_probs 0 s.groups = some s'.groups ∧
      s'.step = s.step + 1 := by
  unfold Orchestrator.Step at h
  cases hrun : model.Run s.step (s.groups.map fun g => g.map fun h => h.tokens) with
  | none => simp [hrun] at h
  | some log_probs =>
    simp only [hrun] at h
    cases hg : stepGroups cfg num s.step log_probs 0 s.groups with
    | none => simp [hg] at h
    | some groups =>
      simp only [hg, Option.some.injEq] at h
      subst h
      exact ⟨log_probs, rfl, hg, rfl⟩

/-- The groups of a reachable state: one per prompt, `num_beams` hypotheses each. -/
theorem Reachable_size (cfg : SearchConfiguration) (num : Numerics) (model : SubgraphAdapter)
    (prompts : List (List Nat)) (s : GenerationState)
    (hs : Reachable cfg num model prompts s) :
    s.groups.length = prompts.length ∧ ∀ g ∈ s.groups, g.length = cfg.num_beams := by
  induction hs with
  | init =>
    refine ⟨by simp [Orchestrator.Initialize], ?_⟩
    intro g hg
    simp only [Orchestrator.Initialize, List.mem_map] at hg
    obtain ⟨prompt, _, rfl⟩ := hg
    simp
  | step s s' _ _ hstep ih =>
    obtain ⟨log_probs, _, hgroups, _⟩ := Step_some cfg num model s s' hstep
    obtain ⟨hl, hget⟩ := stepGroups_some cfg num s.step log_probs _ _ 0 hgroups
    refine ⟨by rw [hl, ih.1], ?_⟩
    intro g' hg'
    obtain ⟨b, hb⟩ := List.mem_iff_getElem?.1 hg'
    obtain ⟨g, hg, hsel⟩ := hget b g' hb
    exact stepGroup_length cfg num s.step _ g g' (ih.2 g (List.getElem?_mem hg)) hsel

/-! ### The loop and its exit -/

/-- A token with a finite processed log-probability is allowed, and it is not an
end-of-sequence token below `min_length`. -/
theorem LogitsProcessor_finite (cfg : SearchConfiguration) (num : Numerics)
    (h : Hypothesis) (log_probs : Nat → Int) (token : Nat)
    (hf : (LogitsProcessor cfg num h log_probs token).isFinite = true) :
    cfg.allowed token = true ∧
      ¬ (token = cfg.eos_token_id ∧ h.tokens.length < cfg.min_length) := by
  unfold LogitsProcessor at hf
  split at hf
  · exact absurd hf (by simp [LogProb.isFinite])
  · rename_i ha
    split at hf
    · exact absurd hf (by simp [LogProb.isFinite])
    · rename_i he
      exact ⟨by simpa using ha, he⟩

/-! ### The invariant of the stepping loop -/

/-- A finished hypothesis stays well formed when the step advances. -/
theorem wellFormed_finished (cfg : SearchConfiguration) (prompt : List Nat) (step step' : Nat)
    (h : Hypothesis) (hw : h.wellFormed cfg prompt step) (hf : h.finished = true) :
    h.wellFormed cfg prompt step' := by
  obtain ⟨h1, h2, h3, h4, _, h6⟩ := hw
  exact ⟨h1, h2, h3, h4, fun hc => by rw [hf] at hc; exact absurd hc (by simp), h6⟩

/-- Appending a token with a finite processed log-probability keeps a hypothesis well
formed. -/
theorem wellFormed_extend (cfg : SearchConfiguration) (num : Numerics) (prompt : List Nat)
    (step : Nat) (h : Hypothesis) (log_probs : Nat → Int) (token : Nat)
    (hmm : cfg.min_length ≤ cfg.max_length)
    (hw : h.wellFormed cfg prompt step) (hf : h.finished = false)
    (hfin : (h.extend cfg step token (LogitsProcessor cfg num h log_probs token)).score.isFinite
      = true) :
    (h.extend cfg step token (LogitsProcessor cfg num h log_probs token)).wellFormed cfg prompt
      (step + 1) := by
  obtain ⟨h1, ⟨gen, h2⟩, h3, _, h5, _⟩ := hw
  obtain ⟨hstep, hmax⟩ := h5 hf
  have hlp : (LogitsProcessor cfg num h log_probs token).isFinite = true := by
    simp only [Hypothesis.extend] at hfin
    exact ((LogProb.add_isFinite _ _).1 hfin).2
  have heos := (LogitsProcessor_finite cfg num h log_probs token hlp).2
  have hplen : prompt.length ≤ h.tokens.length := by rw [h2]; simp
  refine ⟨hfin, ⟨gen ++ [token], by simp [Hypothesis.extend, h2]⟩, ?_, ?_, ?_, ?_⟩
  · intro i hi hget
    simp only [Hypothesis.extend] at hget
    by_cases hlt : i < h.tokens.length
    · rw [List.getElem?_append_left hlt] at hget
      exact h3 i hi hget
    · rw [List.getElem?_append_right (by omega)] at hget
      by_cases heq : i = h.tokens.length
      · subst heq
        simp only [Nat.sub_self, List.getElem?_cons_zero, Option.some.injEq] at hget
        by_contra hc
        exact heos ⟨hget, by omega⟩
      · have : i - h.tokens.length = (i - h.tokens.length - 1) + 1 := by omega
        rw [this] at hget
        simp at hget
  · intro hfd
    simp only [Hypothesis.extend, Bool.or_eq_true, decide_eq_true_eq, List.length_append,
      List.length_singleton] at hfd ⊢
    rcases hfd with hfd | hfd
    · by_contra hc
      exact heos ⟨hfd, by omega⟩
    · omega
  · intro hfd
    simp only [Hypothesis.extend, Bool.or_eq_false_iff, decide_eq_false_iff_not,
      List.length_append, List.length_singleton] at hfd ⊢
    omega
  · simp only [Hypothesis.extend, List.length_append, List.length_singleton]
    omega

/-- Selection keeps the hypotheses of a batch item well formed. -/
theorem CandidateSelector_wellFormed (cfg : SearchConfiguration) (num : Numerics)
    (prompt : List Nat) (step : Nat) (log_probs : Nat → Nat → Int) (group group' : BeamGroup)
    (hmm : cfg.min_length ≤ cfg.max_length)
    (hg : ∀ h ∈ group, h.wellFormed cfg prompt step)
    (hsel : CandidateSelector cfg num step log_probs group = some group') :
    ∀ h' ∈ group', h'.wellFormed cfg prompt (step + 1) := by
  intro h' hmem
  obtain ⟨hfin, c, hc, rfl⟩ :=
    (CandidateSelector_some cfg num step log_probs group group' hsel).2 h' hmem
  obtain ⟨j, h2, _, hmem2, hcase⟩ := mem_proposeAll_parent cfg num step log_probs group c hc
  rcases hcase with ⟨hf, rfl⟩ | ⟨hf, t2, _, rfl⟩
  · exact wellFormed_finished cfg prompt step _ h2 (hg h2 hmem2) hf
  · exact wellFormed_extend cfg num prompt step h2 _ t2 hmm (hg h2 hmem2) hf hfin

theorem stepGroup_wellFormed (cfg : SearchConfiguration) (num : Numerics)
    (prompt : List Nat) (step : Nat) (log_probs : Nat → Nat → Int) (group group' : BeamGroup)
    (hmm : cfg.min_length ≤ cfg.max_length)
    (hg : ∀ h ∈ group, h.wellFormed cfg prompt step)
    (hsel : stepGroup cfg num step log_probs group = some group') :
    ∀ h' ∈ group', h'.wellFormed cfg prompt (step + 1) := by
  unfold stepGroup at hsel
  split at hsel
  · rename_i haf
    simp only [Option.some.injEq] at hsel
    subst hsel
    intro h hh
    have hf : h.finished = true := by
      simp only [BeamGroup.allFinished, List.all_eq_true] at haf
      exact haf h hh
    exact wellFormed_finished cfg prompt _ _ h (hg h hh) hf
  · exact CandidateSelector_wellFormed cfg num prompt step log_probs group group' hmm hg hsel

theorem Initialize_wellFormed (cfg : SearchConfiguration) (prompts : List (List Nat))
    (hmm : cfg.min_length ≤ cfg.max_length) :
    (Orchestrator.Initialize cfg prompts).wellFormed cfg prompts := by
  intro b prompt group hp hg h hh
  simp only [Orchestrator.Initialize, List.getElem?_map, hp, Option.map_some',
    Option.some.injEq] at hg
  subst hg
  rw [List.mem_replicate] at hh
  obtain ⟨_, rfl⟩ := hh
  refine ⟨rfl, ⟨[], by simp⟩, ?_, ?_, ?_, Nat.le_max_right _ _⟩
  · intro i hi hget
    rw [List.getElem?_eq_none (by simpa using hi)] at hget
    exact absurd hget (by simp)
  · intro hf
    simp only [decide_eq_true_eq] at hf
    show cfg.min_length ≤ prompt.length
    omega
  · intro hf
    simp only [decide_eq_false_iff_not] at hf
    show 0 ≤ prompt.length ∧ prompt.length < cfg.max_length
    omega

/-- Every reachable state is well formed, for a configuration with
`min_length ≤ max_length`. -/
theorem Reachable_wellFormed (cfg : SearchConfiguration) (num : Numerics)
    (model : SubgraphAdapter) (prompts : List (List Nat))
    (hmm : cfg.min_length ≤ cfg.max_length)
    (s : GenerationState) (hs : Reachable cfg num model prompts s) :
    s.wellFormed cfg prompts := by
  induction hs with
  | init => exact Initialize_wellFormed cfg prompts hmm
  | step s s' _ _ hstep ih =>
    obtain ⟨log_probs, _, hgroups, hst⟩ := Step_some cfg num model s s' hstep
    obtain ⟨_, hget⟩ := stepGroups_some cfg num s.step log_probs _ _ 0 hgroups
    intro b prompt group hp hg h hh
    obtain ⟨g, hgb, hsel⟩ := hget b group hg
    rw [hst]
    exact stepGroup_wellFormed cfg num prompt s.step _ g group hmm (ih b prompt g hp hgb) hsel
      h hh

/-- The counts of an accepted configuration are the counts of the parameters. -/
theorem Validate_ok_counts (p : BeamSearchParameters) (cfg : SearchConfiguration)
    (h : p.Validate = .ok cfg) :
    (cfg.num_beams : Int) = p.num_beams ∧
      (cfg.num_return_sequences : Int) = p.num_return_sequences := by
  unfold BeamSearchParameters.Validate at h
  split at h
  · exact absurd h (by simp)
  · split at h
    · exact absurd h (by simp)
    · split at h
      · exact absurd h (by simp)
      · split at h
        · exact absurd h (by simp)
        · simp only [Except.ok.injEq] at h
          subst h
          exact ⟨by simp only; omega, by simp only; omega⟩

/-- The first element of a stable descending sort: the earliest element that ranks at least
as high as every other one. -/
theorem insertionSort_head (l : List Candidate) (hne : l ≠ []) :
    ∃ (i : Nat) (m : Candidate), l[i]? = some m ∧
      (l.insertionSort Candidate.atLeast).head? = some m ∧
      (∀ (j : Nat) (x : Candidate), j < i → l[j]? = some x → ¬ Candidate.atLeast x m) ∧
      (∀ x ∈ l, Candidate.atLeast m x) := by
  induction l with
  | nil => exact absurd rfl hne
  | cons a rest ih =>
    by_cases hrest : rest = []
    · subst hrest
      refine ⟨0, a, by simp, by simp, ?_, ?_⟩
      · intro j x hj; omega
      · intro x hx
        simp only [List.mem_singleton] at hx
        subst hx
        exact LogProb.le_refl _
    · obtain ⟨i, m, hget, hhead, hbefore, hall⟩ := ih hrest
      obtain ⟨tail, htail⟩ : ∃ tail, rest.insertionSort Candidate.atLeast = m :: tail := by
        cases hs : rest.insertionSort Candidate.atLeast with
        | nil => rw [hs] at hhead; simp at hhead
        | cons x tail =>
          rw [hs] at hhead
          simp only [List.head?_cons, Option.some.injEq] at hhead
          exact ⟨tail, by rw [hhead]⟩
      by_cases ham : Candidate.atLeast a m
      · refine ⟨0, a, by simp, ?_, ?_, ?_⟩
        · simp [List.insertionSort, htail, List.orderedInsert, ham]
        · intro j x hj; omega
        · intro x hx
          rcases List.mem_cons.1 hx with rfl | hx
          · exact LogProb.le_refl _
          · exact LogProb.le_trans _ _ _ (hall x hx) ham
      · refine ⟨i + 1, m, by simpa using hget, ?_, ?_, ?_⟩
        · simp [List.insertionSort, htail, List.orderedInsert, ham]
        · intro j x hj hx
          cases j with
          | zero =>
            simp only [List.getElem?_cons_zero, Option.some.injEq] at hx
            subst hx
            exact ham
          | succ j =>
            exact hbefore j x (by omega) (by simpa using hx)
        · intro x hx
          rcases List.mem_cons.1 hx with rfl | hx
          · rcases LogProb.le_total x.result.score m.result.score with h1 | h1
            · exact h1
            · exact absurd h1 ham
          · exact hall x hx

theorem LogProb.add_le_add_left (a : Int) (x y : LogProb) :
    ((LogProb.fin a).add x).le ((LogProb.fin a).add y) = x.le y := by
  cases x <;> cases y <;> simp [LogProb.add, LogProb.le]

/-- The processed log-probability of a token is `−∞` when the token is masked, and the
log-probability greedy decoding compares when it is not. -/
theorem LogitsProcessor_eq (cfg : SearchConfiguration) (num : Numerics)
    (h : Hypothesis) (log_probs : Nat → Int) (token : Nat) :
    LogitsProcessor cfg num h log_probs token =
      if cfg.unmasked h token then
        .fin (GreedyDecoding.logProbability cfg num h log_probs token)
      else .negInf := by
  unfold LogitsProcessor SearchConfiguration.unmasked GreedyDecoding.logProbability
  cases ha : cfg.allowed token with
  | false => simp
  | true =>
    by_cases he : token = cfg.eos_token_id ∧ h.tokens.length < cfg.min_length
    · simp [he]
    · have hd : (decide (token = cfg.eos_token_id) &&
          decide (h.tokens.length < cfg.min_length)) = false := by
        simpa using he
      simp only [Bool.not_true, Bool.false_eq_true, if_false, he, Bool.true_and, hd,
        Bool.not_false, if_true]
      split <;> rfl

/-- Selection for a single unfinished hypothesis with a finite score, when it succeeds,
appends the first unmasked token of highest log-probability. -/
theorem CandidateSelector_single (cfg : SearchConfiguration) (num : Numerics) (step : Nat)
    (log_probs : Nat → Nat → Int) (h : Hypothesis) (group' : BeamGroup)
    (hB : cfg.num_beams = 1) (hf : h.finished = false) (hfin : h.score.isFinite = true)
    (hsel : CandidateSelector cfg num step log_probs [h] = some group') :
    ∃ token, group' =
        [h.extend cfg step token (LogitsProcessor cfg num h (log_probs 0) token)] ∧
      token < cfg.vocab_size ∧
      cfg.unmasked h token = true ∧
      (∀ t, t < cfg.vocab_size → cfg.unmasked h t = true →
        GreedyDecoding.logProbability cfg num h (log_probs 0) t ≤
          GreedyDecoding.logProbability cfg num h (log_probs 0) token) ∧
      (∀ t, t < token → cfg.unmasked h t = true →
        GreedyDecoding.logProbability cfg num h (log_probs 0) t <
          GreedyDecoding.logProbability cfg num h (log_probs 0) token) := by
  obtain ⟨a, ha⟩ : ∃ a, h.score = .fin a := by
    cases hs : h.score with
    | negInf => simp [hs, LogProb.isFinite] at hfin
    | fin a => exact ⟨a, rfl⟩
  have hp : proposeAll cfg num step log_probs 0 [h] =
      (List.range cfg.vocab_size).map fun token =>
        ({ parent := 0, token := some token,
           result := h.extend cfg step token
            (LogitsProcessor cfg num h (log_probs 0) token) } : Candidate) := by
    simp [proposeAll, propose, hf]
  have hscore : ∀ t, (h.extend cfg step t
      (LogitsProcessor cfg num h (log_probs 0) t)).score =
      (LogProb.fin a).add (LogitsProcessor cfg num h (log_probs 0) t) := by
    intro t
    simp [Hypothesis.extend, ha]
  unfold CandidateSelector at hsel
  simp only [hp, hB, TopK] at hsel
  by_cases hne : ((List.range cfg.vocab_size).map fun token =>
      ({ parent := 0, token := some token,
         result := h.extend cfg step token
          (LogitsProcessor cfg num h (log_probs 0) token) } : Candidate)) = []
  · rw [hne] at hsel
    simp at hsel
  · obtain ⟨i, m, hget, hhead, hbefore, hall⟩ := insertionSort_head _ hne
    simp only [List.getElem?_map] at hget
    have hi : i < cfg.vocab_size := by
      by_contra hc
      rw [List.getElem?_eq_none (by simpa using hc)] at hget
      simp at hget
    rw [List.getElem?_range hi] at hget
    simp only [Option.map_some', Option.some.injEq] at hget
    subst hget
    have hle : ∀ t, t < cfg.vocab_size →
        (LogitsProcessor cfg num h (log_probs 0) t).le
          (LogitsProcessor cfg num h (log_probs 0) i) = true := by
      intro t ht
      have := hall _ (List.mem_map.2 ⟨t, List.mem_range.2 ht, rfl⟩)
      unfold Candidate.atLeast at this
      simp only [hscore, LogProb.add_le_add_left] at this
      exact this
    have hlt : ∀ t, t < i →
        (LogitsProcessor cfg num h (log_probs 0) i).le
          (LogitsProcessor cfg num h (log_probs 0) t) = false := by
      intro t ht
      have := hbefore t _ ht (by
        rw [List.getElem?_map, List.getElem?_range (by omega)]
        rfl)
      unfold Candidate.atLeast at this
      simp only [hscore, LogProb.add_le_add_left] at this
      simpa using this
    cases hs : List.insertionSort Candidate.atLeast
        ((List.range cfg.vocab_size).map fun token =>
          ({ parent := 0, token := some token,
             result := h.extend cfg step token
              (LogitsProcessor cfg num h (log_probs 0) token) } : Candidate)) with
    | nil => rw [hs] at hhead; simp at hhead
    | cons x tail =>
      rw [hs] at hhead hsel
      simp only [List.head?_cons, Option.some.injEq] at hhead
      subst hhead
      cases hu : cfg.unmasked h i with
      | false =>
        exfalso
        have hnone : ∀ c ∈ List.insertionSort Candidate.atLeast
            ((List.range cfg.vocab_size).map fun token =>
              ({ parent := 0, token := some token,
                 result := h.extend cfg step token
                  (LogitsProcessor cfg num h (log_probs 0) token) } : Candidate)),
            c.result.score.isFinite = false := by
          intro c hc
          have hc2 := (List.perm_insertionSort Candidate.atLeast _).subset hc
          obtain ⟨t, ht, rfl⟩ := List.mem_map.1 hc2
          have h1 := hle t (List.mem_range.1 ht)
          rw [LogitsProcessor_eq cfg num h (log_probs 0) i, hu] at h1
          simp only [Bool.false_eq_true, if_false] at h1
          show (h.extend cfg step t
            (LogitsProcessor cfg num h (log_probs 0) t)).score.isFinite = false
          rw [hscore t, LogProb.le_negInf _ h1]
          rfl
        rw [← hs] at hsel
        rw [List.filter_eq_nil_iff.2 (fun c hc => by simp [hnone c hc])] at hsel
        simp at hsel
      | true =>
        have hfi : (LogitsProcessor cfg num h (log_probs 0) i).isFinite = true := by
          rw [LogitsProcessor_eq, hu]; rfl
        have hxf : (h.extend cfg step i
            (LogitsProcessor cfg num h (log_probs 0) i)).score.isFinite = true := by
          simp only [Hypothesis.extend]
          rw [LogProb.add_isFinite]
          exact ⟨hfin, hfi⟩
        simp [List.filter_cons, hxf] at hsel
        refine ⟨i, hsel.symm, hi, hu, ?_, ?_⟩
        · intro t ht htu
          have h1 := hle t ht
          rw [LogitsProcessor_eq cfg num h (log_probs 0) t,
            LogitsProcessor_eq cfg num h (log_probs 0) i, hu, htu] at h1
          simpa [LogProb.le] using h1
        · intro t ht htu
          have h1 := hlt t ht
          rw [LogitsProcessor_eq cfg num h (log_probs 0) t,
            LogitsProcessor_eq cfg num h (log_probs 0) i, hu, htu] at h1
          simpa [LogProb.le] using h1

/-- The greedy scan over tokens that are all strictly worse than `token` ends with no token or
with one strictly worse than `token`. -/
theorem keepBest_foldl_before (cfg : SearchConfiguration) (num : Numerics) (h : Hypothesis)
    (log_probs : Nat → Int) (token : Nat) :
    ∀ (pre : List Nat) (best : Option Nat),
      (∀ b, best = some b → GreedyDecoding.logProbability cfg num h log_probs b <
        GreedyDecoding.logProbability cfg num h log_probs token) →
      (∀ x ∈ pre, cfg.unmasked h x = true →
        GreedyDecoding.logProbability cfg num h log_probs x <
          GreedyDecoding.logProbability cfg num h log_probs token) →
      ∀ b, pre.foldl (GreedyDecoding.keepBest cfg num h log_probs) best = some b →
        GreedyDecoding.logProbability cfg num h log_probs b <
          GreedyDecoding.logProbability cfg num h log_probs token := by
  intro pre
  induction pre with
  | nil =>
    intro best hbest _ b hb
    exact hbest b hb
  | cons x rest ih =>
    intro best hbest hpre b hb
    rw [List.foldl_cons] at hb
    refine ih _ ?_ (fun y hy => hpre y (List.mem_cons_of_mem _ hy)) b hb
    intro b' hb'
    unfold GreedyDecoding.keepBest at hb'
    cases hu : cfg.unmasked h x with
    | false =>
      simp only [hu, Bool.false_eq_true, if_false] at hb'
      exact hbest b' hb'
    | true =>
      simp only [hu, if_true] at hb'
      cases best with
      | none =>
        simp only [Option.some.injEq] at hb'
        subst hb'
        exact hpre _ (List.mem_cons_self _ _) hu
      | some b0 =>
        simp only at hb'
        split at hb'
        · simp only [Option.some.injEq] at hb'
          subst hb'
          exact hpre _ (List.mem_cons_self _ _) hu
        · simp only [Option.some.injEq] at hb'
          subst hb'
          exact hbest _ rfl

/-- The greedy scan keeps `token` over tokens that are not strictly better. -/
theorem keepBest_foldl_after (cfg : SearchConfiguration) (num : Numerics) (h : Hypothesis)
    (log_probs : Nat → Int) (token : Nat) :
    ∀ (suf : List Nat),
      (∀ x ∈ suf, cfg.unmasked h x = true →
        GreedyDecoding.logProbability cfg num h log_probs x ≤
          GreedyDecoding.logProbability cfg num h log_probs token) →
      suf.foldl (GreedyDecoding.keepBest cfg num h log_probs) (some token) = some token := by
  intro suf
  induction suf with
  | nil => intro _; rfl
  | cons x rest ih =>
    intro hsuf
    rw [List.foldl_cons]
    have hk : GreedyDecoding.keepBest cfg num h log_probs (some token) x = some token := by
      unfold GreedyDecoding.keepBest
      cases hu : cfg.unmasked h x with
      | false => simp
      | true =>
        have := hsuf x (List.mem_cons_self _ _) hu
        simp only [if_true]
        rw [if_neg (by omega)]
    rw [hk]
    exact ih (fun y hy => hsuf y (List.mem_cons_of_mem _ hy))

/-- Greedy decoding chooses the unmasked token that no unmasked token beats and that beats
every unmasked token of lower index. -/
theorem chooseToken_eq (cfg : SearchConfiguration) (num : Numerics) (h : Hypothesis)
    (log_probs : Nat → Int) (token : Nat) (hV : token < cfg.vocab_size)
    (hu : cfg.unmasked h token = true)
    (hmax : ∀ t, t < cfg.vocab_size → cfg.unmasked h t = true →
      GreedyDecoding.logProbability cfg num h log_probs t ≤
        GreedyDecoding.logProbability cfg num h log_probs token)
    (hfirst : ∀ t, t < token → cfg.unmasked h t = true →
      GreedyDecoding.logProbability cfg num h log_probs t <
        GreedyDecoding.logProbability cfg num h log_probs token) :
    GreedyDecoding.chooseToken cfg num h log_probs = some token := by
  obtain ⟨pre, suf, hrange⟩ := List.append_of_mem (List.mem_range.2 hV)
  have hpw := List.pairwise_lt_range cfg.vocab_size
  rw [hrange, List.pairwise_append] at hpw
  obtain ⟨_, _, hlt⟩ := hpw
  unfold GreedyDecoding.chooseToken
  rw [hrange, List.foldl_append, List.foldl_cons]
  have hbefore := keepBest_foldl_before cfg num h log_probs token pre none
    (fun b hb => by simp at hb)
    (fun x hx hxu => hfirst x (hlt x hx token (List.mem_cons_self _ _)) hxu)
  have hk : GreedyDecoding.keepBest cfg num h log_probs
      (pre.foldl (GreedyDecoding.keepBest cfg num h log_probs) none) token = some token := by
    cases hr : pre.foldl (GreedyDecoding.keepBest cfg num h log_probs) none with
    | none => simp [GreedyDecoding.keepBest, hu]
    | some b =>
      have := hbefore b hr
      simp [GreedyDecoding.keepBest, hu, this]
  rw [hk]
  apply keepBest_foldl_after
  intro x hx hxu
  refine hmax x ?_ hxu
  apply List.mem_range.1
  rw [hrange]
  exact List.mem_append_right _ (List.mem_cons_of_mem _ hx)

/-- C5: with `num_beams = 1`, every batch item of a state reachable by the stepping loop of
`Compute` has a single hypothesis, and for every logits table a step leaves a finished
hypothesis unchanged and appends to an unfinished one the highest-log-probability unmasked
token, lowest index on ties: the appended token is unmasked, no unmasked token of the
vocabulary has a higher log-probability, every unmasked token of lower index has a strictly
lower one, and it is the token standard greedy decoding chooses. Without a repetition penalty
the log-probabilities compared are the ones the model returned. -/
theorem greedy_equivalence (self : BeamSearch) (num : Numerics) (model : SubgraphAdapter)
    (prompts : List (List Nat)) (cfg : SearchConfiguration)
    (hv : self.parameters_.Validate = .ok cfg) (hB : self.parameters_.num_beams = 1)
    (s s' : GenerationState) (hs : Reachable cfg num model prompts s)
    (log_probs : Nat → Nat → Nat → Int)
    (hrun : model.Run s.step (s.groups.map fun g => g.map fun h => h.tokens) = some log_probs)
    (hstep : Orchestrator.Step cfg num model s = some s') :
    ∀ (b : Nat) (g : BeamGroup), s.groups[b]? = some g →
      ∃ h, g = [h] ∧
        (h.finished = true → s'.groups[b]? = some [h]) ∧
        (h.finished = false →
          ∃ (token : Nat) (h' : Hypothesis), s'.groups[b]? = some [h'] ∧
            h'.tokens = h.tokens ++ [token] ∧
            token < cfg.vocab_size ∧
            cfg.unmasked h token = true ∧
            (∀ t, t < cfg.vocab_size → cfg.unmasked h t = true →
              GreedyDecoding.logProbability cfg num h (log_probs b 0) t ≤
                GreedyDecoding.logProbability cfg num h (log_probs b 0) token) ∧
            (∀ t, t < token → cfg.unmasked h t = true →
              GreedyDecoding.logProbability cfg num h (log_probs b 0) t <
                GreedyDecoding.logProbability cfg num h (log_probs b 0) token) ∧
            GreedyDecoding.chooseToken cfg num h (log_probs b 0) = some token ∧
            ((∀ v, num.penalize cfg.repetition_penalty v = v) →
              ∀ t, t < cfg.vocab_size → cfg.unmasked h t = true →
                log_probs b 0 t ≤ log_probs b 0 token ∧
                  (t < token → log_probs b 0 t < log_probs b 0 token))) := by
  intro b g hg
  obtain ⟨hcB, _⟩ := Validate_ok_counts _ cfg hv
  have hB1 : cfg.num_beams = 1 := by omega
  have hmm := (Validate_ok _ cfg hv).2.1.2.2
  obtain ⟨hlen, hsize⟩ := Reachable_size cfg num model prompts s hs
  have hw := Reachable_wellFormed cfg num model prompts hmm s hs
  have hgl := hsize g (List.getElem?_mem hg)
  rw [hB1] at hgl
  obtain ⟨h, rfl⟩ := List.length_eq_one.1 hgl
  have hb : b < s.groups.length := by
    by_contra hc
    rw [List.getElem?_eq_none (by omega)] at hg
    simp at hg
  have hfin : h.score.isFinite = true :=
    (hw b _ [h] (List.getElem?_eq_getElem (by omega)) hg h (List.mem_singleton_self _)).1
  obtain ⟨lp, hlp, hgroups, _⟩ := Step_some cfg num model s s' hstep
  rw [hrun] at hlp
  simp only [Option.some.injEq] at hlp
  subst hlp
  obtain ⟨hl, hget⟩ := stepGroups_some cfg num s.step log_probs _ _ 0 hgroups
  have hb' : b < s'.groups.length := by omega
  obtain ⟨g0, hg0, hsel⟩ := hget b _ (List.getElem?_eq_getElem hb')
  rw [hg] at hg0
  simp only [Option.some.injEq] at hg0
  subst hg0
  rw [Nat.zero_add] at hsel
  refine ⟨h, rfl, ?_, ?_⟩
  · intro hf
    simp only [stepGroup, BeamGroup.allFinished, List.all_cons, hf, List.all_nil,
      Bool.and_self, if_true, Option.some.injEq] at hsel
    rw [List.getElem?_eq_getElem hb', ← hsel]
  · intro hf
    simp only [stepGroup, BeamGroup.allFinished, List.all_cons, hf, List.all_nil,
      Bool.and_true, Bool.false_eq_true, if_false] at hsel
    obtain ⟨token, hnew, h1, h2, h3, h4⟩ := CandidateSelector_single cfg num s.step
      (log_probs b) h _ hB1 hf hfin hsel
    refine ⟨token, _, by rw [List.getElem?_eq_getElem hb', hnew], rfl, h1, h2, h3, h4,
      chooseToken_eq cfg num h (log_probs b 0) token h1 h2 h3 h4, ?_⟩
    intro hid t ht htu
    have e : ∀ x, GreedyDecoding.logProbability cfg num h (log_probs b 0) x =
        log_probs b 0 x := by
      intro x
      unfold GreedyDecoding.logProbability
      split
      · exact hid _
      · rfl
    have h3' := h3 t ht htu
    refine ⟨by rw [e, e] at h3'; exact h3', fun hlt => ?_⟩
    have h4' := h4 t hlt htu
    rw [e, e] at h4'
    exact h4'

/-- Witness for `greedy_equivalence`: the first step of the demo session with one beam appends
token `0` to the prompt, the token `demoModel` scores highest and the one greedy decoding
chooses. -/
theorem greedy_equivalence_witness :
    Orchestrator.Step demoGreedyConfig demoNumerics demoModel
        (Orchestrator.Initialize demoGreedyConfig [[9]]) =
        some ⟨[[⟨[9, 0], .fin (-1), false, none⟩]], 1⟩ ∧
      GreedyDecoding.chooseToken demoGreedyConfig demoNumerics ⟨[9], .fin 0, false, none⟩
        (demoLogProbs 0 0) = some 0 := by
  have hstep : Orchestrator.Step demoGreedyConfig demoNumerics demoModel
      (Orchestrator.Initialize demoGreedyConfig [[9]]) =
      some ⟨[[⟨[9, 0], .fin (-1), false, none⟩]], 1⟩ := by decide
  have hv : (BeamSearch.construct demoGreedyParameters).parameters_.Validate =
      .ok demoGreedyConfig := rfl
  have hrun : demoModel.Run (Orchestrator.Initialize demoGreedyConfig [[9]]).step
      ((Orchestrator.Initialize demoGreedyConfig [[9]]).groups.map fun g =>
        g.map fun h => h.tokens) = some demoLogProbs := rfl
  obtain ⟨h, hh, _, hu⟩ := greedy_equivalence (BeamSearch.construct demoGreedyParameters)
    demoNumerics demoModel [[9]] demoGreedyConfig hv rfl
    (Orchestrator.Initialize demoGreedyConfig [[9]]) _ Reachable.init demoLogProbs hrun hstep
    0 [⟨[9], .fin 0, false, none⟩] rfl
  simp only [List.cons.injEq, and_true] at hh
  subst hh
  obtain ⟨token, h', hg', htok, _, _, _, _, hchoose, _⟩ := hu rfl
  simp only [List.getElem?_cons_zero, Option.some.injEq, List.cons.injEq, and_true] at hg'
  subst hg'
  simp only [List.cons_append, List.nil_append, List.cons.injEq, true_and, and_true] at htok
  subst htok
  exact ⟨hstep, hchoose⟩

end onnxruntime.contrib.transformers
